import Mathlib

/-!
Verification of the mini distillation engine pipeline.

Shallow embedding of the repository code (pipeline/traceability.py,
pipeline/ingest.py, pipeline/chunk.py, pipeline/extract.py,
pipeline/normalize.py, pipeline/synthesize_workflow.py,
pipeline/validate_workflow.py) together with theorems settling the
specification claims about it.

Conventions used throughout the embedding:
- Python `int` is modelled as `Int` (or `Nat` where the source guarantees
  non-negativity, e.g. regex-parsed digit groups).
- Python dicts with string keys are modelled as association lists looked up
  by first match (Python dicts have unique keys, so this coincides).
- Functions that `raise` are modelled as `Except ErrorType` values.
-/

namespace Traceability

/-- `Citation` dataclass from pipeline/traceability.py. -/
structure Citation where
  chunk_id : String
  line_start : Int
  line_end : Int
deriving DecidableEq

/-- The part of the trace index consumed by `validate_citation`:
the `chunk_bounds` dict mapping chunk_id to `(line_start, line_end)`,
modelled as an association list with lookup by first match. -/
structure TraceIndex where
  chunk_bounds : List (String × Int × Int)
deriving DecidableEq

/-- Python dict lookup `index["chunk_bounds"].get(cid)`. -/
def lookupBounds (idx : TraceIndex) (cid : String) : Option (Int × Int) :=
  (idx.chunk_bounds.find? (fun p => p.1 == cid)).map (fun p => (p.2.1, p.2.2))

/-- `validate_citation` from pipeline/traceability.py (lines 85-93).
Each failed `_require` raises `TraceabilityError`; modelled as `Except`.
The `isinstance(..., int)` checks are vacuous in the typed embedding. -/
def validate_citation (idx : TraceIndex) (cit : Citation) : Except String Unit :=
  match lookupBounds idx cit.chunk_id with
  | none => .error ("Unknown chunk_id: " ++ cit.chunk_id)
  | some (ls, le) =>
    if ¬ (cit.line_start ≤ cit.line_end) then
      .error "Citation line_start must be <= line_end."
    else if ¬ (ls ≤ cit.line_start ∧ cit.line_start ≤ le) then
      .error "Citation line_start out of chunk bounds"
    else if ¬ (ls ≤ cit.line_end ∧ cit.line_end ≤ le) then
      .error "Citation line_end out of chunk bounds"
    else
      .ok ()

/-- A one-chunk index whose single chunk has bounds [10, 15], as in the
citation bounds round-trip example. -/
def demoIndex : TraceIndex := ⟨[("c0001", 10, 15)]⟩

end Traceability

open Traceability in
/-- C1: `validate_citation` succeeds iff the citation's chunk_id is a key of
the index's chunk_bounds map, its line_start ≤ line_end, and both endpoints
lie within the referenced chunk's recorded bounds; for a chunk with bounds
[10, 15], the citation (10, 12) validates while (9, 12), (10, 16) and the
inverted (14, 11) each fail. -/
theorem claim_C1_validate_citation :
    (∀ (idx : TraceIndex) (cit : Citation),
      (validate_citation idx cit).isOk = true ↔
        ∃ b, lookupBounds idx cit.chunk_id = some b ∧
          cit.line_start ≤ cit.line_end ∧
          b.1 ≤ cit.line_start ∧ cit.line_start ≤ b.2 ∧
          b.1 ≤ cit.line_end ∧ cit.line_end ≤ b.2) ∧
    (validate_citation demoIndex ⟨"c0001", 10, 12⟩).isOk = true ∧
    (validate_citation demoIndex ⟨"c0001", 9, 12⟩).isOk = false ∧
    (validate_citation demoIndex ⟨"c0001", 10, 16⟩).isOk = false ∧
    (validate_citation demoIndex ⟨"c0001", 14, 11⟩).isOk = false := by
  refine ⟨?_, by decide, by decide, by decide, by decide⟩
  intro idx cit
  unfold validate_citation
  cases h : lookupBounds idx cit.chunk_id with
  | none =>
    simp [Except.isOk, Except.toBool]
  | some b =>
    obtain ⟨ls, le⟩ := b
    constructor
    · intro hok
      refine ⟨(ls, le), rfl, ?_⟩
      by_cases h1 : cit.line_start ≤ cit.line_end
      · by_cases h2 : ls ≤ cit.line_start ∧ cit.line_start ≤ le
        · by_cases h3 : ls ≤ cit.line_end ∧ cit.line_end ≤ le
          · exact ⟨h1, h2.1, h2.2, h3.1, h3.2⟩
          · simp [h1, h2, h3, Except.isOk, Except.toBool] at hok
        · simp [h1, h2, Except.isOk, Except.toBool] at hok
      · simp [h1, Except.isOk, Except.toBool] at hok
    · rintro ⟨b, hb, h1, h2, h3, h4, h5⟩
      cases hb
      simp only at h2 h3 h4 h5
      simp [h1, h2, h3, h4, h5, Except.isOk, Except.toBool]

open Traceability in
/-- Closed instance of the C1 characterization at a concrete index and
citation, obtained by applying the claim theorem. -/
theorem claim_C1_validate_citation_witness :
    ∃ b, lookupBounds demoIndex "c0001" = some b ∧
      (10 : Int) ≤ 12 ∧ b.1 ≤ 10 ∧ 10 ≤ b.2 ∧ b.1 ≤ 12 ∧ 12 ≤ b.2 :=
  (claim_C1_validate_citation.1 demoIndex ⟨"c0001", 10, 12⟩).mp (by decide)

namespace ExtractMod

/-- The value of a citation line field in raw model JSON, before the
`int(c.get("line_start", ls))` coercion in `normalize_citations_to_chunk`:
the key can be absent, hold an int-coercible value (modelled by the
resulting integer), or hold a value on which Python `int(...)` raises. -/
inductive RawLineField where
  | absent
  | value (n : Int)
  | unparseable
deriving DecidableEq

/-- A raw citation dict from model JSON. `chunk_id` is `none` when the key
is absent (a non-string value behaves the same here, because the field is
overwritten unread by normalization). `extra` records whether the dict
carries keys outside the citation schema (rejected later by the strict
schema validation, `extra="forbid"`). -/
structure RawCitation where
  chunk_id : Option String
  line_start : RawLineField
  line_end : RawLineField
  quote : Option String
  extra : Bool
deriving DecidableEq

/-- An entry of a raw `citations` array: a JSON object or not
(non-dict entries are skipped by normalization). -/
inductive RawCitationItem where
  | nonObject
  | obj (c : RawCitation)
deriving DecidableEq

/-- A raw extracted-fact dict from model JSON. Field values are `none` when
the key is absent; `citations = none` also covers a present non-list value
(both make `isinstance(cits, list)` false). `extra` records keys outside
the fact schema. -/
structure RawFact where
  fact_id : Option String
  fact_type : Option String
  statement : Option String
  strength : Option String
  requires_human_review : Option Bool
  citations : Option (List RawCitationItem)
  extra : Bool
deriving DecidableEq

/-- An entry of a raw `extracted_facts` array: a JSON object or not
(non-dict entries are left untouched by normalization). -/
inductive RawFactItem where
  | nonObject
  | obj (f : RawFact)
deriving DecidableEq

/-- The raw per-chunk JSON object `{"extracted_facts": [...]}`.
`extracted_facts = none` covers both a missing key and a non-list value. -/
structure RawChunkObj where
  extracted_facts : Option (List RawFactItem)
  extra : Bool
deriving DecidableEq

/-- A chunk dict as loaded from step1_chunks.json (integer bounds). -/
structure ChunkRec where
  chunk_id : String
  line_start : Int
  line_end : Int
  text : String
deriving DecidableEq

/-- The `int(c.get(key, default))` coercion inside the per-citation `try`
block: absent keys default to the chunk bound, unparseable values raise
(propagated as `none`, which drops the citation). -/
def coerceLine (default : Int) : RawLineField → Option Int
  | .absent => some default
  | .value n => some n
  | .unparseable => none

/-- Per-citation body of `normalize_citations_to_chunk`
(pipeline/extract.py lines 82-107): force chunk_id, coerce the line
fields, drop the citation when coercion raises or the range is entirely
outside the chunk, otherwise clamp both endpoints into the chunk bounds
and swap them if inverted. -/
def normalizeCitation (cid : String) (ls le : Int) (c : RawCitation) :
    Option RawCitation :=
  match coerceLine ls c.line_start, coerceLine le c.line_end with
  | some cls, some cle =>
    if cle < ls ∨ le < cls then none
    else
      let a := max ls (min le cls)
      let b := max ls (min le cle)
      let p : Int × Int := if b < a then (b, a) else (a, b)
      some { c with chunk_id := some cid,
                    line_start := .value p.1, line_end := .value p.2 }
  | _, _ => none

/-- One entry of the citations array under normalization: non-dict entries
are skipped, dict entries are normalized or dropped. -/
def normalizeCitationItem (cid : String) (ls le : Int) :
    RawCitationItem → Option RawCitationItem
  | .nonObject => none
  | .obj c => (normalizeCitation cid ls le c).map .obj

/-- One entry of the extracted_facts array under normalization: non-dict
entries and facts without a citations list pass through unchanged. -/
def normalizeFactItem (cid : String) (ls le : Int) :
    RawFactItem → RawFactItem
  | .nonObject => .nonObject
  | .obj f =>
    match f.citations with
    | none => .obj f
    | some cits =>
      .obj { f with
             citations := some (cits.filterMap (normalizeCitationItem cid ls le)) }

/-- `normalize_citations_to_chunk` from pipeline/extract.py (lines 59-111). -/
def normalize_citations_to_chunk (obj : RawChunkObj) (chunk : ChunkRec) :
    RawChunkObj :=
  match obj.extracted_facts with
  | none => obj
  | some facts =>
    { obj with
      extracted_facts := some (facts.map
        (normalizeFactItem chunk.chunk_id chunk.line_start chunk.line_end)) }

/-- The chunk of the citation clamping example: bounds [5, 9]. -/
def demoChunk : ChunkRec := ⟨"c0001", 5, 9, ""⟩

end ExtractMod


namespace ExtractMod

/-- Unfolding of `normalizeCitation` when both line fields coerce. -/
theorem normalizeCitation_coerce_some (cid : String) (ls le : Int)
    (c : RawCitation) (s e : Int)
    (hs : coerceLine ls c.line_start = some s)
    (he : coerceLine le c.line_end = some e) :
    normalizeCitation cid ls le c =
      if e < ls ∨ le < s then none
      else
        let a := max ls (min le s)
        let b := max ls (min le e)
        let p : Int × Int := if b < a then (b, a) else (a, b)
        some { c with chunk_id := some cid,
                      line_start := .value p.1, line_end := .value p.2 } := by
  unfold normalizeCitation
  rw [hs, he]

/-- Unfolding of `normalizeCitation` when a line field fails coercion. -/
theorem normalizeCitation_coerce_none (cid : String) (ls le : Int)
    (c : RawCitation)
    (h : coerceLine ls c.line_start = none ∨ coerceLine le c.line_end = none) :
    normalizeCitation cid ls le c = none := by
  unfold normalizeCitation
  rcases h with h | h
  · rw [h]
  · rw [h]
    cases coerceLine ls c.line_start <;> rfl

/-- The swap-if-inverted step yields the ordered pair of its arguments. -/
theorem swapIfInverted (a b : Int) :
    (if b < a then (b, a) else (a, b)) = (min a b, max a b) := by
  rcases le_or_lt a b with h | h
  · rw [if_neg (by omega), min_eq_left h, max_eq_right h]
  · rw [if_pos h, min_eq_right h.le, max_eq_left h.le]

/-- Any citation produced by `normalizeCitation` over bounds ls ≤ le has the
forced chunk id and clamped, ordered integer bounds. -/
theorem normalizeCitation_sound (cid : String) (ls le : Int)
    (hLU : ls ≤ le) (c cr : RawCitation)
    (hc : normalizeCitation cid ls le c = some cr) :
    cr.chunk_id = some cid ∧
    ∃ s e, cr.line_start = .value s ∧ cr.line_end = .value e ∧
      ls ≤ s ∧ s ≤ e ∧ e ≤ le := by
  cases hs : coerceLine ls c.line_start with
  | none =>
    rw [normalizeCitation_coerce_none cid ls le c (Or.inl hs)] at hc
    cases hc
  | some s =>
    cases he : coerceLine le c.line_end with
    | none =>
      rw [normalizeCitation_coerce_none cid ls le c (Or.inr he)] at hc
      cases hc
    | some e =>
      rw [normalizeCitation_coerce_some cid ls le c s e hs he] at hc
      by_cases hout : e < ls ∨ le < s
      · rw [if_pos hout] at hc
        cases hc
      · rw [if_neg hout] at hc
        simp only [swapIfInverted] at hc
        cases hc
        refine ⟨rfl, _, _, rfl, rfl, ?_, ?_, ?_⟩ <;> omega

end ExtractMod

open ExtractMod in
/-- C2: after `normalize_citations_to_chunk` over a chunk with integer
bounds [L, U] (L ≤ U), every citation retained on any fact has chunk_id
forced to the chunk's id and integer endpoints with
L ≤ line_start ≤ line_end ≤ U; a citation whose line fields fail integer
coercion is removed; a citation lying entirely outside [L, U] is removed;
absent line fields default to the chunk's own bounds; all other ranges are
clamped into [L, U] and swapped if inverted. -/
theorem claim_C2_normalize_citations_to_chunk (chunk : ChunkRec)
    (hLU : chunk.line_start ≤ chunk.line_end) :
    (∀ (obj : RawChunkObj) (fl : List RawFactItem) (f : RawFact)
        (cl : List RawCitationItem) (c : RawCitation),
        (normalize_citations_to_chunk obj chunk).extracted_facts = some fl →
        RawFactItem.obj f ∈ fl → f.citations = some cl →
        RawCitationItem.obj c ∈ cl →
        c.chunk_id = some chunk.chunk_id ∧
        ∃ s e, c.line_start = .value s ∧ c.line_end = .value e ∧
          chunk.line_start ≤ s ∧ s ≤ e ∧ e ≤ chunk.line_end) ∧
    (∀ c : RawCitation,
        c.line_start = .unparseable ∨ c.line_end = .unparseable →
        normalizeCitation chunk.chunk_id chunk.line_start chunk.line_end c =
          none) ∧
    (∀ (c : RawCitation) (s e : Int),
        coerceLine chunk.line_start c.line_start = some s →
        coerceLine chunk.line_end c.line_end = some e →
        (e < chunk.line_start ∨ chunk.line_end < s) →
        normalizeCitation chunk.chunk_id chunk.line_start chunk.line_end c =
          none) ∧
    (∀ (c : RawCitation) (s e : Int),
        coerceLine chunk.line_start c.line_start = some s →
        coerceLine chunk.line_end c.line_end = some e →
        ¬ (e < chunk.line_start ∨ chunk.line_end < s) →
        normalizeCitation chunk.chunk_id chunk.line_start chunk.line_end c =
          some { c with
                 chunk_id := some chunk.chunk_id,
                 line_start := .value (min
                   (max chunk.line_start (min chunk.line_end s))
                   (max chunk.line_start (min chunk.line_end e))),
                 line_end := .value (max
                   (max chunk.line_start (min chunk.line_end s))
                   (max chunk.line_start (min chunk.line_end e))) }) ∧
    (∀ c : RawCitation, c.line_start = .absent → c.line_end = .absent →
        normalizeCitation chunk.chunk_id chunk.line_start chunk.line_end c =
          some { c with
                 chunk_id := some chunk.chunk_id,
                 line_start := .value chunk.line_start,
                 line_end := .value chunk.line_end }) := by
  have hclamp : ∀ (c : RawCitation) (s e : Int),
      coerceLine chunk.line_start c.line_start = some s →
      coerceLine chunk.line_end c.line_end = some e →
      ¬ (e < chunk.line_start ∨ chunk.line_end < s) →
      normalizeCitation chunk.chunk_id chunk.line_start chunk.line_end c =
        some { c with
               chunk_id := some chunk.chunk_id,
               line_start := .value (min
                 (max chunk.line_start (min chunk.line_end s))
                 (max chunk.line_start (min chunk.line_end e))),
               line_end := .value (max
                 (max chunk.line_start (min chunk.line_end s))
                 (max chunk.line_start (min chunk.line_end e))) } := by
    intro c s e hs he hout
    rw [normalizeCitation_coerce_some chunk.chunk_id chunk.line_start
      chunk.line_end c s e hs he, if_neg hout]
    simp only [swapIfInverted]
  refine ⟨?_, ?_, ?_, hclamp, ?_⟩
  · intro obj fl f cl c hobj hf hcits hc
    unfold normalize_citations_to_chunk at hobj
    split at hobj
    · rename_i heq
      cases hobj.symm.trans heq
    · cases hobj
      obtain ⟨fit, _hfit, hmap⟩ := List.mem_map.mp hf
      cases fit with
      | nonObject => simp [normalizeFactItem] at hmap
      | obj f0 =>
        simp only [normalizeFactItem] at hmap
        split at hmap
        · cases hmap
          rename_i hnone
          rw [hnone] at hcits
          cases hcits
        · cases hmap
          simp only at hcits
          cases hcits
          obtain ⟨item, _hitem, hnc⟩ := List.mem_filterMap.mp hc
          cases item with
          | nonObject => simp [normalizeCitationItem] at hnc
          | obj c0 =>
            simp only [normalizeCitationItem] at hnc
            cases hc0 : normalizeCitation chunk.chunk_id chunk.line_start
                chunk.line_end c0 with
            | none => rw [hc0] at hnc; cases hnc
            | some cr =>
              rw [hc0] at hnc
              simp only [Option.map_some'] at hnc
              cases hnc
              exact normalizeCitation_sound chunk.chunk_id chunk.line_start
                chunk.line_end hLU c0 c hc0
  · intro c hbad
    apply normalizeCitation_coerce_none
    rcases hbad with h | h
    · exact Or.inl (by rw [h]; rfl)
    · exact Or.inr (by rw [h]; rfl)
  · intro c s e hs he hout
    rw [normalizeCitation_coerce_some chunk.chunk_id chunk.line_start
      chunk.line_end c s e hs he, if_pos hout]
  · intro c h1 h2
    have hs : coerceLine chunk.line_start c.line_start =
        some chunk.line_start := by rw [h1]; rfl
    have he : coerceLine chunk.line_end c.line_end =
        some chunk.line_end := by rw [h2]; rfl
    rw [hclamp c chunk.line_start chunk.line_end hs he (by omega)]
    have e1 : min (max chunk.line_start (min chunk.line_end chunk.line_start))
        (max chunk.line_start (min chunk.line_end chunk.line_end)) =
        chunk.line_start := by omega
    have e2 : max (max chunk.line_start (min chunk.line_end chunk.line_start))
        (max chunk.line_start (min chunk.line_end chunk.line_end)) =
        chunk.line_end := by omega
    rw [e1, e2]

open ExtractMod in
/-- Closed instance of C2 at the clamping example: for chunk bounds [5, 9],
the raw citation (chunk_id "other", lines 1-20) is forced to the chunk id
and clamped to [5, 9], and a citation at lines 20-25 (entirely outside) is
dropped. -/
theorem claim_C2_normalize_citations_to_chunk_witness :
    normalizeCitation "c0001" 5 9 ⟨some "other", .value 1, .value 20, none,
      false⟩ = some ⟨some "c0001", .value 5, .value 9, none, false⟩ ∧
    normalizeCitation "c0001" 5 9 ⟨some "other", .value 20, .value 25, none,
      false⟩ = none := by
  have h := claim_C2_normalize_citations_to_chunk demoChunk (by decide)
  constructor
  · have h4 := h.2.2.2.1 ⟨some "other", .value 1, .value 20, none, false⟩
      1 20 rfl rfl (by decide)
    simpa [demoChunk] using h4
  · have h3 := h.2.2.1 ⟨some "other", .value 20, .value 25, none, false⟩
      20 25 rfl rfl (by decide)
    simpa [demoChunk] using h3

namespace ExtractMod

/-- The double-quote character (code 34). -/
def quoteChar : Char := Char.ofNat 34

/-- The backslash character (code 92). -/
def backslashChar : Char := Char.ofNat 92

/-- The opening curly brace character (code 123). -/
def lbraceChar : Char := Char.ofNat 123

/-- The closing curly brace character (code 125). -/
def rbraceChar : Char := Char.ofNat 125

/-- The opening square bracket character (code 91). -/
def lbrackChar : Char := Char.ofNat 91

/-- The closing square bracket character (code 93). -/
def rbrackChar : Char := Char.ofNat 93

/-- The comma character (code 44). -/
def commaChar : Char := Char.ofNat 44

/-- Scanner state of `recover_truncated_chunk_json`: string/escape flags,
object and array nesting depth, and the last recorded safe end position. -/
structure ScanState where
  in_str : Bool
  esc : Bool
  obj_depth : Nat
  arr_depth : Nat
  last_safe_end : Option Nat
deriving DecidableEq

/-- Initial scanner state. -/
def initScan : ScanState := ⟨false, false, 0, 0, none⟩

/-- One step of the character scan in `recover_truncated_chunk_json`
(pipeline/extract.py lines 212-236). Python's `max(0, obj_depth - 1)` is
truncated subtraction on `Nat`. -/
def scanStep (st : ScanState) (i : Nat) (ch : Char) : ScanState :=
  if st.in_str then
    if st.esc then { st with esc := false }
    else if ch = backslashChar then { st with esc := true }
    else if ch = quoteChar then { st with in_str := false }
    else st
  else if ch = quoteChar then { st with in_str := true }
  else if ch = lbraceChar then { st with obj_depth := st.obj_depth + 1 }
  else if ch = rbraceChar then
    if st.obj_depth - 1 = 1 ∧ st.arr_depth = 1 then
      { st with obj_depth := st.obj_depth - 1, last_safe_end := some i }
    else { st with obj_depth := st.obj_depth - 1 }
  else if ch = lbrackChar then { st with arr_depth := st.arr_depth + 1 }
  else if ch = rbrackChar then { st with arr_depth := st.arr_depth - 1 }
  else st

/-- The `for i, ch in enumerate(s)` scan loop. -/
def scanChars (st : ScanState) (i : Nat) : List Char → ScanState
  | [] => st
  | ch :: rest => scanChars (scanStep st i ch) (i + 1) rest

/-- The required head of recoverable text: the 18 characters of
`{"extracted_facts"`. -/
def jsonHeadChars : List Char :=
  lbraceChar :: quoteChar :: ("extracted_facts".data ++ [quoteChar])

/-- Python `str.rstrip()` on a character list. -/
def rstripChars (l : List Char) : List Char :=
  (l.reverse.dropWhile Char.isWhitespace).reverse

/-- Python `str.strip()` on a character list (same behavior as the source's
`.strip()` on the whitespace characters involved). -/
def stripChars (l : List Char) : List Char :=
  rstripChars (l.dropWhile Char.isWhitespace)

/-- `recover_truncated_chunk_json` from pipeline/extract.py (lines
191-246): strip, check the required head, scan for the last safe end,
cut there, strip a trailing comma, close the array and root object. -/
def recover_truncated_chunk_json (text : String) : Option String :=
  let s := stripChars text.data
  if ¬ (jsonHeadChars.isPrefixOf s) then none
  else
    match (scanChars initScan 0 s).last_safe_end with
    | none => none
    | some i =>
      let cut := rstripChars (s.take (i + 1))
      let cut2 := if cut.getLast? = some commaChar
                  then rstripChars cut.dropLast else cut
      some (String.mk (cut2 ++ [rbrackChar, rbraceChar]))

/-- The condition under which position `i` holding character `ch` is
recorded as a safe end: outside any string, a closing brace brings the
object depth back to 1 while the array depth is 1. -/
def hitCond (st : ScanState) (ch : Char) : Prop :=
  st.in_str = false ∧ ch = rbraceChar ∧ st.obj_depth - 1 = 1 ∧
    st.arr_depth = 1

instance (st : ScanState) (ch : Char) : Decidable (hitCond st ch) := by
  unfold hitCond; infer_instance

/-- Modelled from the spec: position `i` of the character list "closes a
complete fact element inside the facts array", judged from the scanner
state reached just before `i`. -/
def closesFact (cs : List Char) (i : Nat) : Prop :=
  match cs.drop i with
  | [] => False
  | ch :: _ => hitCond (scanChars initScan 0 (cs.take i)) ch

instance (cs : List Char) (i : Nat) : Decidable (closesFact cs i) := by
  unfold closesFact
  cases cs.drop i <;> simp <;> infer_instance

/-- Modelled from the spec: the LAST position of the text at which a
complete fact object closes inside the facts array, expressed directly as
the greatest index satisfying `closesFact`. -/
def specLastSafe (cs : List Char) : Option Nat :=
  ((List.range cs.length).filter (fun i => decide (closesFact cs i))).getLast?

/-- Modelled from the spec (§4.8 JSON recovery): for text beginning with
`{"extracted_facts"`, truncate at the last position where a fact object
closes (per `specLastSafe`), strip a trailing comma, and append the two
characters that close the array and the root object; `none` when the head
is wrong or no such position exists. -/
def recoverTruncatedSpec (text : String) : Option String :=
  let s := stripChars text.data
  if ¬ (jsonHeadChars.isPrefixOf s) then none
  else
    match specLastSafe s with
    | none => none
    | some i =>
      let cut := rstripChars (s.take (i + 1))
      let cut2 := if cut.getLast? = some commaChar
                  then rstripChars cut.dropLast else cut
      some (String.mk (cut2 ++ [rbrackChar, rbraceChar]))

end ExtractMod

namespace ExtractMod

/-- The scan loop over an appended character performs one extra step. -/
theorem scanChars_append (st : ScanState) (i : Nat) (xs : List Char)
    (c : Char) :
    scanChars st i (xs ++ [c]) = scanStep (scanChars st i xs) (i + xs.length) c := by
  induction xs generalizing st i with
  | nil => simp [scanChars]
  | cons x xs ih =>
    simp only [List.cons_append, scanChars, List.append_eq]
    rw [ih]
    congr 1
    simp
    omega

/-- One scan step records position `i` exactly under `hitCond`, and
otherwise preserves the recorded position. -/
theorem scanStep_last (st : ScanState) (i : Nat) (ch : Char) :
    (scanStep st i ch).last_safe_end =
      if hitCond st ch then some i else st.last_safe_end := by
  have hq1 : rbraceChar ≠ quoteChar := by decide
  have hq2 : rbraceChar ≠ backslashChar := by decide
  have hq3 : rbraceChar ≠ lbraceChar := by decide
  have hq4 : rbraceChar ≠ lbrackChar := by decide
  have hq5 : rbraceChar ≠ rbrackChar := by decide
  unfold scanStep hitCond
  split_ifs <;> simp_all

/-- `closesFact` is stable under appending characters after position `i`. -/
theorem closesFact_append_lt (xs : List Char) (c : Char) (i : Nat)
    (h : i < xs.length) : closesFact (xs ++ [c]) i ↔ closesFact xs i := by
  unfold closesFact
  have htake : (xs ++ [c]).take i = xs.take i :=
    List.take_append_of_le_length h.le
  have hdrop : (xs ++ [c]).drop i = xs.drop i ++ [c] :=
    List.drop_append_of_le_length h.le
  rw [htake, hdrop]
  cases hxs : xs.drop i with
  | nil =>
    exact absurd (List.drop_eq_nil_iff.mp hxs) (by omega)
  | cons ch rest => simp

/-- `closesFact` at the appended position is `hitCond` of the scan state
after the original list. -/
theorem closesFact_append_self (xs : List Char) (c : Char) :
    closesFact (xs ++ [c]) xs.length ↔
      hitCond (scanChars initScan 0 xs) c := by
  unfold closesFact
  have htake : (xs ++ [c]).take xs.length = xs := List.take_left xs [c]
  have hdrop : (xs ++ [c]).drop xs.length = [c] := List.drop_left xs [c]
  rw [htake, hdrop]

/-- Unfolding of the declarative last-safe-end over an appended char. -/
theorem specLastSafe_append (xs : List Char) (c : Char) :
    specLastSafe (xs ++ [c]) =
      if hitCond (scanChars initScan 0 xs) c then some xs.length
      else specLastSafe xs := by
  unfold specLastSafe
  have hlen : (xs ++ [c]).length = xs.length + 1 := by simp
  rw [hlen, List.range_succ, List.filter_append]
  have hcong : (List.range xs.length).filter
      (fun i => decide (closesFact (xs ++ [c]) i)) =
      (List.range xs.length).filter (fun i => decide (closesFact xs i)) := by
    apply List.filter_congr
    intro i hi
    have hi2 : i < xs.length := List.mem_range.mp hi
    simp [closesFact_append_lt xs c i hi2]
  rw [hcong]
  by_cases hhit : hitCond (scanChars initScan 0 xs) c
  · have hfil : List.filter (fun i => decide (closesFact (xs ++ [c]) i))
        [xs.length] = [xs.length] := by
      simp [List.filter_singleton, (closesFact_append_self xs c).mpr hhit]
    rw [hfil, if_pos hhit, List.getLast?_concat]
  · have hc2 : ¬ closesFact (xs ++ [c]) xs.length := fun hcl =>
      hhit ((closesFact_append_self xs c).mp hcl)
    have hfil : List.filter (fun i => decide (closesFact (xs ++ [c]) i))
        [xs.length] = [] := by
      simp [List.filter_singleton, hc2]
    rw [hfil, if_neg hhit, List.append_nil]

/-- The scanner's recorded last-safe-end equals the declarative greatest
position at which a fact object closes. -/
theorem scanChars_last_eq (cs : List Char) :
    (scanChars initScan 0 cs).last_safe_end = specLastSafe cs := by
  induction cs using List.reverseRecOn with
  | nil => rfl
  | append_singleton xs c ih =>
    rw [scanChars_append, scanStep_last, specLastSafe_append, ih]
    simp

end ExtractMod

set_option maxRecDepth 20000 in
open ExtractMod in
/-- C8: `recover_truncated_chunk_json` equals the declarative model that
truncates at the last position where an object closes with object depth
returning to 1 while array depth is 1 (tracking string and escape state),
strips a trailing comma, appends the array/object closers, and returns
none when no such position exists or the text does not begin with
`{"extracted_facts"`; on the truncated two-fact example it returns the
JSON object containing exactly the first (complete) fact object. -/
theorem claim_C8_recover_truncated_chunk_json :
    (∀ text : String,
      recover_truncated_chunk_json text = recoverTruncatedSpec text) ∧
    recover_truncated_chunk_json
        "\x7b\"extracted_facts\":[\x7b\"fact_id\":\"f0001\",\"fact_type\":\"other\",\"statement\":\"x\"\x7d,\x7b\"fact_id\":\"f0002\"" =
      some
        "\x7b\"extracted_facts\":[\x7b\"fact_id\":\"f0001\",\"fact_type\":\"other\",\"statement\":\"x\"\x7d]\x7d" := by
  constructor
  · intro text
    unfold recover_truncated_chunk_json recoverTruncatedSpec
    simp only [scanChars_last_eq]
  · decide

namespace Contracts

/-- `LineRecord` dataclass from pipeline/contracts.py. `line_no` is a `Nat`
because records are only ever built from regex digit groups. -/
structure LineRecord where
  line_no : Nat
  text : String
deriving DecidableEq

/-- `Chunk` dataclass from pipeline/contracts.py. -/
structure Chunk where
  chunk_id : String
  line_start : Nat
  line_end : Nat
  text : String
  lines : List LineRecord
deriving DecidableEq

end Contracts

namespace Ingest

open Contracts

/-- The errors raised by `parse_guideline_lines` (all `ValueError`s in the
source, distinguished here by their messages). -/
inductive ParseError where
  | unparseableLine (idx : Nat) (raw : String)
  | emptyGuideline
  | duplicateLineNumber (n : Nat)
  | nonContiguous (expected : Nat) (got : Nat)
deriving DecidableEq

/-- Value of an ASCII digit string (the regex group `(\d+)` under
Python `int`). -/
def natOfDigits (l : List Char) : Nat :=
  l.foldl (fun a c => a * 10 + (c.toNat - 48)) 0

/-- A physical line is blank when it strips to nothing. -/
def isBlank (raw : String) : Bool :=
  ExtractMod.stripChars raw.data = []

/-- Attempt the four `_LINE_PATTERNS` of pipeline/ingest.py, in order, on
one raw line: `N. text`, `N) text`, `N - text`, `N text`. Returns the
captured number and the stripped text group. All four patterns share the
`^\s*(\d+)` head; they differ in what must follow the digits:
a literal dot, a literal closing parenthesis, optional whitespace then a
hyphen, or at least one whitespace character followed by at least one
further character. Python character classes are modelled by
`Char.isWhitespace`/`Char.isDigit` (the ASCII behavior relevant here). -/
def parseLine (raw : String) : Option (Nat × String) :=
  let afterWs := raw.data.dropWhile Char.isWhitespace
  let digits := afterWs.takeWhile Char.isDigit
  let rest := afterWs.dropWhile Char.isDigit
  if digits = [] then none
  else
    let n := natOfDigits digits
    match rest with
    | [] => none
    | c :: rs =>
      if c = '.' then some (n, String.mk (ExtractMod.stripChars rs))
      else if c = ')' then some (n, String.mk (ExtractMod.stripChars rs))
      else
        match rest.dropWhile Char.isWhitespace with
        | c2 :: rs2 =>
          if c2 = '-' then some (n, String.mk (ExtractMod.stripChars rs2))
          else if c.isWhitespace ∧ 2 ≤ rest.length then
            some (n, String.mk (ExtractMod.stripChars rest))
          else none
        | [] =>
          if c.isWhitespace ∧ 2 ≤ rest.length then
            some (n, String.mk (ExtractMod.stripChars rest))
          else none

/-- The per-line loop of `parse_guideline_lines`: skip blank lines, fail on
the first unparseable non-blank line, collect records in order. `idx` is
the 1-based `enumerate` counter. -/
def parseAll (idx : Nat) : List String → Except ParseError (List LineRecord)
  | [] => .ok []
  | raw :: rest =>
    if isBlank raw then parseAll (idx + 1) rest
    else
      match parseLine raw with
      | none => .error (.unparseableLine idx raw)
      | some (n, t) => (parseAll (idx + 1) rest).map (fun rs => ⟨n, t⟩ :: rs)

/-- The duplicate/contiguity loop of `parse_guideline_lines`: `seen` is the
set of already-visited line numbers, `expected` the next required value. -/
def checkNumbering (expected : Nat) (seen : List Nat) :
    List LineRecord → Except ParseError Unit
  | [] => .ok ()
  | r :: rest =>
    if r.line_no ∈ seen then .error (.duplicateLineNumber r.line_no)
    else if r.line_no ≠ expected then .error (.nonContiguous expected r.line_no)
    else checkNumbering (expected + 1) (r.line_no :: seen) rest

/-- `parse_guideline_lines` from pipeline/ingest.py (lines 23-79), on the
list of physical lines of the file. -/
def parse_guideline_lines (lines : List String) :
    Except ParseError (List LineRecord) :=
  match parseAll 1 lines with
  | .error e => .error e
  | .ok [] => .error .emptyGuideline
  | .ok (r0 :: rest) =>
    match checkNumbering r0.line_no [] (r0 :: rest) with
    | .error e => .error e
    | .ok _ => .ok (r0 :: rest)

/-- The records a fully-parseable file yields: blank lines skipped, each
remaining line parsed by the four patterns. -/
def recordsOf (lines : List String) : List LineRecord :=
  lines.filterMap (fun l =>
    if isBlank l then none
    else (parseLine l).map (fun p => ⟨p.1, p.2⟩))

end Ingest

namespace Ingest

open Contracts

/-- If every non-blank line parses, the parse loop succeeds and returns
exactly the records of the file. -/
theorem parseAll_ok_of (lines : List String) (idx : Nat)
    (h : ∀ l ∈ lines, isBlank l = false → (parseLine l).isSome = true) :
    parseAll idx lines = .ok (recordsOf lines) := by
  induction lines generalizing idx with
  | nil => rfl
  | cons raw rest ih =>
    have hrest : ∀ l ∈ rest, isBlank l = false → (parseLine l).isSome = true :=
      fun l hl => h l (List.mem_cons_of_mem _ hl)
    unfold parseAll
    by_cases hb : isBlank raw = true
    · rw [if_pos hb, ih (idx + 1) hrest]
      simp [recordsOf, List.filterMap_cons, hb]
    · have hs := h raw (List.mem_cons_self raw rest) (by simpa using hb)
      obtain ⟨p, hp⟩ := Option.isSome_iff_exists.mp hs
      rw [if_neg hb, hp, ih (idx + 1) hrest]
      simp [recordsOf, List.filterMap_cons, hb, hp, Except.map]

/-- Conversely, a successful parse loop implies every non-blank line
parses and the result is exactly the records of the file. -/
theorem parseAll_ok_elim (lines : List String) (idx : Nat)
    (rs : List LineRecord) (h : parseAll idx lines = .ok rs) :
    (∀ l ∈ lines, isBlank l = false → (parseLine l).isSome = true) ∧
      rs = recordsOf lines := by
  induction lines generalizing idx rs with
  | nil =>
    cases h
    exact ⟨by simp, rfl⟩
  | cons raw rest ih =>
    unfold parseAll at h
    by_cases hb : isBlank raw = true
    · rw [if_pos hb] at h
      obtain ⟨hall, heq⟩ := ih (idx + 1) rs h
      refine ⟨?_, ?_⟩
      · intro l hl hnb
        rcases List.mem_cons.mp hl with rfl | hl
        · rw [hb] at hnb; cases hnb
        · exact hall l hl hnb
      · simp [recordsOf, List.filterMap_cons, hb, heq]
    · rw [if_neg hb] at h
      cases hp : parseLine raw with
      | none => rw [hp] at h; simp at h
      | some p =>
        rw [hp] at h
        cases hrest : parseAll (idx + 1) rest with
        | error e => rw [hrest] at h; simp [Except.map] at h
        | ok rs0 =>
          rw [hrest] at h
          simp only [Except.map] at h
          cases h
          obtain ⟨hall, heq⟩ := ih (idx + 1) rs0 hrest
          refine ⟨?_, ?_⟩
          · intro l hl hnb
            rcases List.mem_cons.mp hl with rfl | hl
            · simp [hp]
            · exact hall l hl hnb
          · simp [recordsOf, List.filterMap_cons, hb, hp, heq]

/-- The duplicate/contiguity loop succeeds exactly when the record numbers
are the consecutive run starting at `expected`, provided everything in
`seen` is below `expected`. -/
theorem checkNumbering_iff (rs : List LineRecord) (expected : Nat)
    (seen : List Nat) (hseen : ∀ m ∈ seen, m < expected) :
    checkNumbering expected seen rs = .ok () ↔
      rs.map (fun r => r.line_no) = List.range' expected rs.length := by
  induction rs generalizing expected seen with
  | nil => simp [checkNumbering, List.range']
  | cons r rest ih =>
    unfold checkNumbering
    have hnotin : r.line_no = expected → r.line_no ∉ seen := by
      intro he hmem
      have := hseen _ hmem
      omega
    constructor
    · intro hok
      by_cases h1 : r.line_no ∈ seen
      · rw [if_pos h1] at hok; simp at hok
      · rw [if_neg h1] at hok
        by_cases h2 : r.line_no = expected
        · rw [if_neg (by simp [h2])] at hok
          have hseen2 : ∀ m ∈ r.line_no :: seen, m < expected + 1 := by
            intro m hm
            rcases List.mem_cons.mp hm with rfl | hm
            · omega
            · have := hseen m hm; omega
          have hrest := (ih (expected + 1) (r.line_no :: seen) hseen2).mp hok
          simp [List.range', h2, hrest]
        · rw [if_pos (by simpa using h2)] at hok; simp at hok
    · intro heq
      simp only [List.map_cons, List.length_cons, List.range'] at heq
      obtain ⟨h2, hrest⟩ := List.cons.injEq .. ▸ heq
      have h1 : r.line_no ∉ seen := hnotin h2
      rw [if_neg h1, if_neg (by simp [h2])]
      have hseen2 : ∀ m ∈ r.line_no :: seen, m < expected + 1 := by
        intro m hm
        rcases List.mem_cons.mp hm with rfl | hm
        · omega
        · have := hseen m hm; omega
      exact (ih (expected + 1) (r.line_no :: seen) hseen2).mpr hrest

end Ingest


/-- Decidable equality of `Except` results, for evaluating the embedded
parsers on concrete inputs. -/
instance {ε α : Type} [DecidableEq ε] [DecidableEq α] :
    DecidableEq (Except ε α)
  | .error e1, .error e2 =>
    if h : e1 = e2 then isTrue (by rw [h])
    else isFalse (fun hc => by cases hc; exact h rfl)
  | .error _, .ok _ => isFalse (fun hc => by cases hc)
  | .ok _, .error _ => isFalse (fun hc => by cases hc)
  | .ok a1, .ok a2 =>
    if h : a1 = a2 then isTrue (by rw [h])
    else isFalse (fun hc => by cases hc; exact h rfl)

set_option maxRecDepth 20000 in
open Ingest Contracts in
/-- C4: `parse_guideline_lines` succeeds exactly when at least one record
is produced, every non-blank physical line matches one of the four
numbering patterns, all line numbers are unique, and the records' numbers
form a consecutive run starting from the first record's number; a file
with lines numbered 1,2,4 fails with a non-contiguous-numbering error
naming expected value 3, and a file with lines numbered 1,2,2,3 fails with
a duplicate-line-number error naming 2. -/
theorem claim_C4_parse_guideline_lines :
    (∀ lines : List String,
      (parse_guideline_lines lines).isOk = true ↔
        ((∀ l ∈ lines, isBlank l = false → (parseLine l).isSome = true) ∧
         recordsOf lines ≠ [] ∧
         ((recordsOf lines).map (fun r => r.line_no)).Nodup ∧
         ∃ start, (recordsOf lines).map (fun r => r.line_no) =
           List.range' start (recordsOf lines).length)) ∧
    parse_guideline_lines ["1. a", "2. b", "4. c"] =
      .error (.nonContiguous 3 4) ∧
    parse_guideline_lines ["1. a", "2. b", "2. c", "3. d"] =
      .error (.duplicateLineNumber 2) := by
  refine ⟨?_, by decide, by decide⟩
  intro lines
  constructor
  · intro hok
    unfold parse_guideline_lines at hok
    split at hok
    · simp [Except.isOk, Except.toBool] at hok
    · simp [Except.isOk, Except.toBool] at hok
    · rename_i r0 tail hall
      obtain ⟨hparse, hrec⟩ := parseAll_ok_elim lines 1 (r0 :: tail) hall
      split at hok
      · simp [Except.isOk, Except.toBool] at hok
      · rename_i u hchk
        have hrange := (checkNumbering_iff (r0 :: tail) r0.line_no []
          (by simp)).mp hchk
        have hrec2 : recordsOf lines = r0 :: tail := hrec.symm
        refine ⟨hparse, by simp [hrec2], ?_, ?_⟩
        · rw [hrec2, hrange]
          exact List.nodup_range' _ _
        · exact ⟨r0.line_no, by rw [hrec2, hrange]⟩
  · rintro ⟨hparse, hne, _hnodup, start, hrange⟩
    unfold parse_guideline_lines
    split
    · rename_i e heq
      rw [parseAll_ok_of lines 1 hparse] at heq
      cases heq
    · rename_i heq
      rw [parseAll_ok_of lines 1 hparse] at heq
      injection heq with h
      exact absurd h hne
    · rename_i r0 tail hall
      rw [parseAll_ok_of lines 1 hparse] at hall
      injection hall with hrecs
      rw [hrecs] at hrange
      have hstart : r0.line_no = start := by
        simp only [List.map_cons, List.length_cons, List.range'] at hrange
        exact (List.cons.injEq .. ▸ hrange).1
      have hchk2 : checkNumbering r0.line_no [] (r0 :: tail) = .ok () := by
        apply (checkNumbering_iff (r0 :: tail) r0.line_no [] (by simp)).mpr
        rw [hstart]
        exact hrange
      split
      · rename_i e hchk
        rw [hchk2] at hchk
        cases hchk
      · simp [Except.isOk, Except.toBool]

open Ingest in
/-- Closed instance of C4: the one-line file "1. a" parses successfully,
via the characterization. -/
theorem claim_C4_parse_guideline_lines_witness :
    (parse_guideline_lines ["1. a"]).isOk = true := by
  apply (claim_C4_parse_guideline_lines.1 ["1. a"]).mpr
  refine ⟨by decide, by decide, by decide, 1, by decide⟩

namespace Chunking

open Contracts

/-- `ChunkingConfig` from pipeline/chunk.py; `Int` so that the non-positive
values rejected by the source remain representable. -/
structure ChunkingConfig where
  max_lines_per_chunk : Int := 20
  max_chars_per_chunk : Int := 1200
deriving DecidableEq

/-- `_format_line_for_chunk`: `f"{r.line_no}. {r.text}".rstrip()`. -/
def _format_line_for_chunk (r : LineRecord) : String :=
  String.mk (ExtractMod.rstripChars (toString r.line_no ++ ". " ++ r.text).data)

/-- Python `f"{i:04d}"`: decimal digits left-padded with zeros to width 4
(wider numbers are left unchanged). -/
def padZeros4 (i : Nat) : String :=
  let s := toString i
  String.mk (List.replicate (4 - s.length) '0') ++ s

/-- Chunk ids `c0001, c0002, ...` in encounter order. -/
def chunkIdFormat (i : Nat) : String := "c" ++ padZeros4 i

/-- The mutable loop state of `chunk_lines`: emitted chunks, the current
buffer, and its accumulated character count. -/
structure ChunkState where
  chunks : List Chunk
  cur : List LineRecord
  cur_chars : Int
deriving DecidableEq

/-- The `flush()` closure of `chunk_lines` (pipeline/chunk.py lines
46-66): a non-empty buffer becomes the next chunk (sequential id, bounds
from first/last buffered record, newline-joined rendered text). -/
def flush (st : ChunkState) : ChunkState :=
  match st.cur with
  | [] => st
  | r0 :: rest =>
    { chunks := st.chunks ++ [{
        chunk_id := chunkIdFormat (st.chunks.length + 1),
        line_start := r0.line_no,
        line_end := (List.getLast (r0 :: rest) (by simp)).line_no,
        text := String.intercalate "\n" ((r0 :: rest).map _format_line_for_chunk),
        lines := r0 :: rest }],
      cur := [],
      cur_chars := 0 }

/-- `add_len`: rendered line length plus one for the implicit newline. -/
def addLen (r : LineRecord) : Int := (_format_line_for_chunk r).length + 1

/-- The flush condition of the loop: the hard line rule, or the soft
character rule on a non-empty buffer. -/
def wouldExceed (cfg : ChunkingConfig) (st : ChunkState) (r : LineRecord) :
    Prop :=
  (st.cur.length + 1 : Int) > cfg.max_lines_per_chunk ∨
    (st.cur_chars + addLen r > cfg.max_chars_per_chunk ∧ 0 < st.cur.length)

instance (cfg : ChunkingConfig) (st : ChunkState) (r : LineRecord) :
    Decidable (wouldExceed cfg st r) := by
  unfold wouldExceed; infer_instance

/-- The per-record body of the `chunk_lines` loop (lines 68-82): flush
first if the hard line limit would be exceeded, or if the soft character
limit would be exceeded on a non-empty buffer; then append the record. -/
def chunkStep (cfg : ChunkingConfig) (st : ChunkState) (r : LineRecord) :
    ChunkState :=
  let st2 := if wouldExceed cfg st r then flush st else st
  { st2 with cur := st2.cur ++ [r], cur_chars := st2.cur_chars + addLen r }

/-- `chunk_lines` from pipeline/chunk.py (lines 30-85). -/
def chunk_lines (records : List LineRecord) (cfg : ChunkingConfig) :
    Except String (List Chunk) :=
  if cfg.max_lines_per_chunk ≤ 0 then .error "max_lines_per_chunk must be > 0"
  else if cfg.max_chars_per_chunk ≤ 0 then
    .error "max_chars_per_chunk must be > 0"
  else .ok (flush (records.foldl (chunkStep cfg) ⟨[], [], 0⟩)).chunks

/-- The per-chunk content/bounds facts claimed for every produced chunk. -/
def boundsOk (c : Chunk) : Prop :=
  c.lines.head?.map (fun r => r.line_no) = some c.line_start ∧
  c.lines.getLast?.map (fun r => r.line_no) = some c.line_end

/-- All structural facts over a produced chunk list: every chunk is a
non-empty group of at most `max_lines_per_chunk` records carrying its own
first/last line numbers, and ids are `c0001, c0002, ...` positionally. -/
def goodChunks (cfg : ChunkingConfig) (cs : List Chunk) : Prop :=
  (∀ c ∈ cs, c.lines ≠ [] ∧
    (c.lines.length : Int) ≤ cfg.max_lines_per_chunk ∧ boundsOk c) ∧
  (∀ i (h : i < cs.length), (cs.get ⟨i, h⟩).chunk_id = chunkIdFormat (i + 1))

/-- The concatenated line content of a chunk list. -/
def joinLines (cs : List Chunk) : List LineRecord :=
  (cs.map (fun c => c.lines)).flatten

/-- The loop invariant of `chunk_lines`: chunks plus buffer hold exactly
the processed records, the buffer respects the hard limit, and all emitted
chunks are well-formed. -/
def ChunkInv (cfg : ChunkingConfig) (processed : List LineRecord)
    (st : ChunkState) : Prop :=
  joinLines st.chunks ++ st.cur = processed ∧
  (st.cur.length : Int) ≤ cfg.max_lines_per_chunk ∧
  goodChunks cfg st.chunks

end Chunking

namespace Chunking

open Contracts

/-- Flushing preserves the total line content (chunks plus buffer). -/
theorem flush_joinLines (st : ChunkState) :
    joinLines (flush st).chunks ++ (flush st).cur =
      joinLines st.chunks ++ st.cur := by
  unfold flush
  split
  · rfl
  · rename_i r0 rest heq
    simp [joinLines, heq]

/-- Flushing empties the buffer. -/
theorem flush_cur (st : ChunkState) : (flush st).cur = [] := by
  unfold flush
  split
  · rename_i heq; exact heq
  · rfl

/-- Flushing a buffer within the hard limit preserves well-formedness. -/
theorem flush_good (cfg : ChunkingConfig) (st : ChunkState)
    (hlen : (st.cur.length : Int) ≤ cfg.max_lines_per_chunk)
    (hg : goodChunks cfg st.chunks) : goodChunks cfg (flush st).chunks := by
  unfold flush
  split
  · exact hg
  · rename_i r0 rest heq
    constructor
    · intro c hc
      rcases List.mem_append.mp hc with hc | hc
      · exact hg.1 c hc
      · simp only [List.mem_singleton] at hc
        subst hc
        refine ⟨by simp, ?_, ?_, ?_⟩
        · simpa [← heq] using hlen
        · simp [boundsOk]
        · simp only [boundsOk]
          rw [List.getLast?_eq_getLast (r0 :: rest) (by simp)]
          simp
    · intro i h
      simp only [List.length_append, List.length_singleton] at h
      rcases Nat.lt_or_ge i st.chunks.length with hi | hi
      · rw [List.get_append i hi]
        exact hg.2 i hi
      · have hieq : i = st.chunks.length := by omega
        subst hieq
        simp [List.get_eq_getElem, List.getElem_append_right (Nat.le_refl _)]

/-- One loop step preserves the chunking invariant. -/
theorem chunkStep_inv (cfg : ChunkingConfig)
    (hml : 0 < cfg.max_lines_per_chunk) (processed : List LineRecord)
    (st : ChunkState) (r : LineRecord) (h : ChunkInv cfg processed st) :
    ChunkInv cfg (processed ++ [r]) (chunkStep cfg st r) := by
  obtain ⟨hjoin, hlen, hgood⟩ := h
  unfold chunkStep
  by_cases hc : wouldExceed cfg st r
  · rw [if_pos hc]
    refine ⟨?_, ?_, ?_⟩
    · show joinLines (flush st).chunks ++ ((flush st).cur ++ [r]) = _
      rw [← List.append_assoc, flush_joinLines, hjoin]
    · show (((flush st).cur ++ [r]).length : Int) ≤ _
      rw [flush_cur]
      simpa using hml
    · exact flush_good cfg st hlen hgood
  · rw [if_neg hc]
    have hnl : (st.cur.length + 1 : Int) ≤ cfg.max_lines_per_chunk := by
      unfold wouldExceed at hc
      push_neg at hc
      exact hc.1
    refine ⟨?_, ?_, hgood⟩
    · show joinLines st.chunks ++ (st.cur ++ [r]) = _
      rw [← List.append_assoc, hjoin]
    · show ((st.cur ++ [r]).length : Int) ≤ _
      simpa using hnl

/-- The whole loop preserves the chunking invariant. -/
theorem foldl_inv (cfg : ChunkingConfig)
    (hml : 0 < cfg.max_lines_per_chunk) (records : List LineRecord) :
    ∀ (processed : List LineRecord) (st : ChunkState),
      ChunkInv cfg processed st →
      ChunkInv cfg (processed ++ records) (records.foldl (chunkStep cfg) st) := by
  induction records with
  | nil => intro processed st h; simpa using h
  | cons r rest ih =>
    intro processed st h
    have h2 := chunkStep_inv cfg hml processed st r h
    have h3 := ih (processed ++ [r]) (chunkStep cfg st r) h2
    simpa [List.append_assoc] using h3

end Chunking

namespace Chunking

open Contracts

/-- Seven one-line records, for the hard-limit example. -/
def demoRecords7 : List LineRecord :=
  [⟨1, "l1"⟩, ⟨2, "l2"⟩, ⟨3, "l3"⟩, ⟨4, "l4"⟩, ⟨5, "l5"⟩, ⟨6, "l6"⟩,
   ⟨7, "l7"⟩]

end Chunking

set_option maxRecDepth 40000 in
open Chunking Contracts in
/-- C5: with both limits positive, `chunk_lines` succeeds and returns
chunks whose concatenated line sequences equal the input in order, each
chunk holding between 1 and `max_lines_per_chunk` lines, with sequential
ids c0001, c0002, ... and bounds equal to its first/last record's line
number; a single record always becomes its own chunk (the soft character
limit never splits an empty buffer); and with `max_lines_per_chunk = 3`,
chunking 7 lines yields sizes [3, 3, 1] spanning lines 1-3, 4-6, 7-7. -/
theorem claim_C5_chunk_lines :
    (∀ (cfg : ChunkingConfig) (records : List LineRecord),
      0 < cfg.max_lines_per_chunk → 0 < cfg.max_chars_per_chunk →
      ∃ cs, chunk_lines records cfg = .ok cs ∧
        joinLines cs = records ∧ goodChunks cfg cs) ∧
    (∀ (cfg : ChunkingConfig) (r : LineRecord),
      0 < cfg.max_lines_per_chunk → 0 < cfg.max_chars_per_chunk →
      ∃ c, chunk_lines [r] cfg = .ok [c] ∧ c.lines = [r]) ∧
    ((chunk_lines demoRecords7 ⟨3, 1200⟩).map
        (fun cs => cs.map (fun c => (c.lines.length, c.line_start, c.line_end))) =
      .ok [(3, 1, 3), (3, 4, 6), (1, 7, 7)]) := by
  have main : ∀ (cfg : ChunkingConfig) (records : List LineRecord),
      0 < cfg.max_lines_per_chunk → 0 < cfg.max_chars_per_chunk →
      ∃ cs, chunk_lines records cfg = .ok cs ∧
        joinLines cs = records ∧ goodChunks cfg cs := by
    intro cfg records hml hmc
    have hinit : ChunkInv cfg [] ⟨[], [], 0⟩ := by
      refine ⟨rfl, by simp; omega, by constructor <;> simp⟩
    have hinv := foldl_inv cfg hml records [] ⟨[], [], 0⟩ hinit
    simp only [List.nil_append] at hinv
    refine ⟨(flush (records.foldl (chunkStep cfg) ⟨[], [], 0⟩)).chunks,
      ?_, ?_, ?_⟩
    · unfold chunk_lines
      rw [if_neg (by omega), if_neg (by omega)]
    · have h1 := flush_joinLines (records.foldl (chunkStep cfg) ⟨[], [], 0⟩)
      rw [flush_cur, List.append_nil] at h1
      rw [h1, hinv.1]
    · exact flush_good cfg _ hinv.2.1 hinv.2.2
  refine ⟨main, ?_, by decide⟩
  intro cfg r hml hmc
  obtain ⟨cs, hok, hjoin, hgood⟩ := main cfg [r] hml hmc
  cases cs with
  | nil => simp [joinLines] at hjoin
  | cons c rest =>
    have hcne := (hgood.1 c (by simp)).1
    simp only [joinLines, List.map_cons, List.flatten_cons] at hjoin
    cases hcl : c.lines with
    | nil => exact absurd hcl hcne
    | cons x xs =>
      rw [hcl] at hjoin
      have hx : x = r ∧ xs ++ (rest.map (fun c => c.lines)).flatten = [] := by
        constructor
        · exact (List.cons.injEq .. ▸ hjoin).1
        · exact (List.cons.injEq .. ▸ hjoin).2
      obtain ⟨hxr, happ⟩ := hx
      obtain ⟨hxs, hflat⟩ := List.append_eq_nil.mp happ
      cases rest with
      | nil =>
        refine ⟨c, hok, ?_⟩
        rw [hcl, hxr, hxs]
      | cons c2 rest2 =>
        have hc2 := (hgood.1 c2 (by simp)).1
        simp only [List.map_cons, List.flatten_cons] at hflat
        exact absurd (List.append_eq_nil.mp hflat).1 hc2

open Chunking Contracts in
/-- Closed instance of C5 at the seven-record example, obtained by applying
the claim theorem. -/
theorem claim_C5_chunk_lines_witness :
    ∃ cs, chunk_lines demoRecords7 ⟨3, 1200⟩ = .ok cs ∧
      joinLines cs = demoRecords7 ∧ goodChunks ⟨3, 1200⟩ cs :=
  claim_C5_chunk_lines.1 ⟨3, 1200⟩ demoRecords7 (by decide) (by decide)

namespace SchemasExtraction

/-- `Strength` enum from schemas/schemas_extraction.py. -/
inductive Strength where
  | must
  | should
  | may
  | consider
  | unclear
deriving DecidableEq

/-- The wire string of a `Strength` value. -/
def Strength.value : Strength → String
  | .must => "must"
  | .should => "should"
  | .may => "may"
  | .consider => "consider"
  | .unclear => "unclear"

/-- `FactType` enum from schemas/schemas_extraction.py. -/
inductive FactType where
  | population
  | threshold
  | exclusion
  | contraindication
  | red_flag
  | action
  | diagnostic
  | follow_up
  | other
deriving DecidableEq

/-- The wire string of a `FactType` value. -/
def FactType.value : FactType → String
  | .population => "population"
  | .threshold => "threshold"
  | .exclusion => "exclusion"
  | .contraindication => "contraindication"
  | .red_flag => "red_flag"
  | .action => "action"
  | .diagnostic => "diagnostic"
  | .follow_up => "follow_up"
  | .other => "other"

/-- `Citation` model from schemas/schemas_extraction.py. -/
structure Citation where
  chunk_id : String
  line_start : Int
  line_end : Int
  quote : Option String := none
deriving DecidableEq

/-- `ExtractedFact` model from schemas/schemas_extraction.py. The
free-form `raw` dict is modelled as an opaque optional payload. -/
structure ExtractedFact where
  fact_id : String
  fact_type : FactType
  statement : String
  strength : Strength := .unclear
  requires_human_review : Bool := false
  subject : Option String := none
  condition : Option String := none
  action : Option String := none
  notes : Option String := none
  citations : List Citation
  raw : Option String := none
deriving DecidableEq

/-- An entry of the free-form `meta` dict of an `ExtractionOutput`: either
the `step6` counters written by normalization, or an opaque payload. -/
inductive MetaEntry where
  | step6 (dropped : Nat) (exact_merges : Nat) (fuzzy_merges : Nat)
  | other (payload : String)
deriving DecidableEq

/-- `ExtractionOutput` model from schemas/schemas_extraction.py. The
free-form `chunking` dict is modelled opaquely; `meta` as an association
list of `MetaEntry`. -/
structure ExtractionOutput where
  guideline_id : String
  model_id : String
  chunking : List (String × String) := []
  extracted_facts : List ExtractedFact := []
  warnings : List String := []
  meta : List (String × MetaEntry) := []
deriving DecidableEq

end SchemasExtraction

namespace SchemasWorkflow

/-- `Citation` model from schemas/schemas_workflow.py. -/
structure WFCitation where
  chunk_id : String
  line_start : Int
  line_end : Int
  quote : Option String := none
deriving DecidableEq

/-- `InputSpec` model from schemas/schemas_workflow.py. -/
structure InputSpec where
  input_id : String
  name : String
  type : String
  description : Option String := none
  choices : Option (List String) := none
deriving DecidableEq

/-- The `WorkflowNode` tagged union (DecisionNode / ActionNode / EndNode),
discriminated by `node_type`. -/
inductive WorkflowNode where
  | decision (node_id : String) (condition : String) (true_next : String)
      (false_next : String) (citations : List WFCitation)
  | action (node_id : String) (action : String)
      (requires_human_review : Bool) (citations : List WFCitation)
  | endNode (node_id : String) (label : Option String)
deriving DecidableEq

/-- The `node_id` field of any node. -/
def WorkflowNode.node_id : WorkflowNode → String
  | .decision nid _ _ _ _ => nid
  | .action nid _ _ _ => nid
  | .endNode nid _ => nid

/-- The `node_type` discriminator string of any node. -/
def WorkflowNode.node_type : WorkflowNode → String
  | .decision _ _ _ _ _ => "decision"
  | .action _ _ _ _ => "action"
  | .endNode _ _ => "end"

/-- The `meta.source` object written by `synthesize_workflow`, modelled
structurally. -/
structure WorkflowMeta where
  step : Nat
  input_artifact : String
  num_facts : Nat
  num_population_facts : Nat
  num_excl_contra_facts : Nat
  num_red_flag_facts : Nat
  num_review_facts : Nat
  review_citations_available : Nat
  review_citations_emitted : Nat
deriving DecidableEq

/-- `Workflow` model from schemas/schemas_workflow.py. -/
structure Workflow where
  workflow_id : String
  guideline_id : String
  inputs : List InputSpec := []
  nodes : List WorkflowNode
  start_node_id : String
  requires_human_review : Bool := false
  warnings : List String := []
  meta : WorkflowMeta
deriving DecidableEq

end SchemasWorkflow

namespace PyUtil

/-- Insert into a sorted list: walk past strictly-smaller elements, place
before the first element not strictly smaller (so equal-key elements keep
their original relative order). -/
def insertLt (lt : α → α → Bool) (x : α) : List α → List α
  | [] => [x]
  | y :: ys => if lt y x then y :: insertLt lt x ys else x :: y :: ys

/-- Stable sort by a strict comparison, modelling Python `sorted` (which is
stable; a stable sort is uniquely determined by the key order). -/
def sortedBy (lt : α → α → Bool) : List α → List α
  | [] => []
  | x :: xs => insertLt lt x (sortedBy lt xs)

/-- Dropping a matching head-segment never lengthens a list. -/
theorem length_dropWhileLe (p : α → Bool) (l : List α) :
    (l.dropWhile p).length ≤ l.length := by
  induction l with
  | nil => simp
  | cons c cs ih =>
    rw [List.dropWhile_cons]
    by_cases hp : p c = true
    · rw [if_pos hp]; simp; omega
    · rw [if_neg hp]

/-- The split step of a string splitter terminates: dropping the head
segment and one separator strictly shortens a non-empty list. -/
theorem dropWhile_drop_lt (p : α → Bool) (c : α) (cs : List α) :
    ((List.dropWhile p (c :: cs)).drop 1).length < (c :: cs).length := by
  rw [List.dropWhile_cons]
  by_cases hp : p c = true
  · rw [if_pos hp]
    have h1 := length_dropWhileLe p cs
    rw [List.length_drop]
    simp only [List.length_cons]
    omega
  · rw [if_neg hp]
    simp

end PyUtil

namespace SynthesizeWorkflow

open SchemasExtraction SchemasWorkflow

/-- `IdGen.d_id`: the n-th decision node id. -/
def dIdFormat (n : Nat) : String := "d" ++ Chunking.padZeros4 n

/-- `IdGen.a_id`: the n-th action node id. -/
def aIdFormat (n : Nat) : String := "a" ++ Chunking.padZeros4 n

/-- `IdGen.e_id`: the n-th end node id. -/
def eIdFormat (n : Nat) : String := "e" ++ Chunking.padZeros4 n

/-- `_cap_citations`: keep the first `max_n` citations. -/
def _cap_citations (cits : List WFCitation) (max_n : Int) : List WFCitation :=
  if max_n ≤ 0 then [] else cits.take max_n.toNat

/-- The `(chunk_id, line_start, line_end)` sort/dedup key. -/
def citKey (c : Citation) : String × Int × Int :=
  (c.chunk_id, c.line_start, c.line_end)

/-- Strict lexicographic order on citation keys (Python tuple `<`). -/
def citLt (a b : Citation) : Bool :=
  decide (a.chunk_id < b.chunk_id ∨
    (a.chunk_id = b.chunk_id ∧ (a.line_start < b.line_start ∨
      (a.line_start = b.line_start ∧ a.line_end < b.line_end))))

/-- The first-occurrence-wins dedup pass of `_merge_citations`. -/
def dedupeSorted (seen : List (String × Int × Int)) :
    List Citation → List WFCitation
  | [] => []
  | c :: rest =>
    if citKey c ∈ seen then dedupeSorted seen rest
    else ⟨c.chunk_id, c.line_start, c.line_end, c.quote⟩ ::
      dedupeSorted (citKey c :: seen) rest

/-- `_merge_citations` from pipeline/synthesize_workflow.py (lines 44-66):
concatenate all facts' citations, sort by key, deduplicate keeping the
first occurrence. -/
def _merge_citations (facts : List ExtractedFact) : List WFCitation :=
  let all_cits := (facts.map (fun f => f.citations)).flatten
  dedupeSorted [] (PyUtil.sortedBy citLt all_cits)

/-- `synthesize_workflow` from pipeline/synthesize_workflow.py (lines
69-224): the fixed seven-node funnel, ids preallocated in source order
(two end, two action, three decision nodes). -/
def synthesize_workflow (ex : ExtractionOutput) : Workflow :=
  let population := ex.extracted_facts.filter
    (fun f => f.fact_type == FactType.population)
  let excl_contra := ex.extracted_facts.filter
    (fun f => f.fact_type == FactType.exclusion ||
      f.fact_type == FactType.contraindication)
  let red_flags := ex.extracted_facts.filter
    (fun f => f.fact_type == FactType.red_flag)
  let review_facts := ex.extracted_facts.filter
    (fun f => f.requires_human_review)
  let inputs : List InputSpec := [
    { input_id := "in001", name := "meets_population", type := "bool",
      description :=
        some "True if the patient matches the guideline population definition." },
    { input_id := "in002", name := "has_exclusion_or_contraindication",
      type := "bool",
      description :=
        some "True if any guideline exclusion or contraindication applies." },
    { input_id := "in003", name := "has_red_flags", type := "bool",
      description := some "True if any guideline red flag is present." }]
  let e_not_applicable := WorkflowNode.endNode (eIdFormat 1)
    (some "Not applicable (outside population)")
  let e_excluded := WorkflowNode.endNode (eIdFormat 2)
    (some "Excluded / contraindicated")
  let a_red_flags := WorkflowNode.action (aIdFormat 1)
    "Guideline red flags present: escalate to urgent evaluation / clinician-directed management per guideline context."
    true (_merge_citations red_flags)
  let review_cits_full := _merge_citations
    (if review_facts.isEmpty then ex.extracted_facts else review_facts)
  let review_cits := _cap_citations review_cits_full 8
  let a_review := WorkflowNode.action (aIdFormat 2)
    "No exclusions/contraindications and no red flags detected. Review the extracted guideline facts and apply clinically. This workflow is a structured summary, not autonomous medical decision-making."
    true review_cits
  let d_population := WorkflowNode.decision (dIdFormat 1) "in001 == true"
    (dIdFormat 2) (eIdFormat 1) (_merge_citations population)
  let d_excl := WorkflowNode.decision (dIdFormat 2) "in002 == true"
    (eIdFormat 2) (dIdFormat 3) (_merge_citations excl_contra)
  let d_red := WorkflowNode.decision (dIdFormat 3) "in003 == true"
    (aIdFormat 1) (aIdFormat 2) (_merge_citations red_flags)
  let warnings :=
    (if population.isEmpty then
      ["Step7: no POPULATION facts found; population gate may require manual interpretation."]
     else []) ++
    (if excl_contra.isEmpty then
      ["Step7: no EXCLUSION/CONTRAINDICATION facts found; exclusion gate may be incomplete."]
     else []) ++
    (if red_flags.isEmpty then
      ["Step7: no RED_FLAG facts found; the red-flag decision node is a template gate with no fact-derived criteria in this run."]
     else [])
  { workflow_id := ex.guideline_id ++ "__v1",
    guideline_id := ex.guideline_id,
    inputs := inputs,
    nodes := [d_population, d_excl, d_red, a_red_flags, a_review,
      e_not_applicable, e_excluded],
    start_node_id := dIdFormat 1,
    requires_human_review := true,
    warnings := warnings,
    meta := {
      step := 7,
      input_artifact := "outputs/step6_extraction_output_clean.json",
      num_facts := ex.extracted_facts.length,
      num_population_facts := population.length,
      num_excl_contra_facts := excl_contra.length,
      num_red_flag_facts := red_flags.length,
      num_review_facts := review_facts.length,
      review_citations_available := review_cits_full.length,
      review_citations_emitted := review_cits.length } }

end SynthesizeWorkflow

namespace ValidateWorkflow

open SchemasWorkflow

/-- Lookup in the `node_map` dict; first match (keys are unique whenever
the validator proceeds past its duplicate check). -/
def findNode (nodes : List WorkflowNode) (nid : String) : Option WorkflowNode :=
  nodes.find? (fun n => n.node_id == nid)

/-- The per-decision edge check loop of `validate_workflow_graph`. -/
def edgesOk (nodes : List WorkflowNode) :
    List WorkflowNode → Except String Unit
  | [] => .ok ()
  | n :: rest =>
    match n with
    | .decision nid _ t f _ =>
      if (findNode nodes t).isNone then
        .error (nid ++ ".true_next missing: " ++ t)
      else if (findNode nodes f).isNone then
        .error (nid ++ ".false_next missing: " ++ f)
      else edgesOk nodes rest
    | _ => edgesOk nodes rest

/-- The stack-based reachability walk: pop, skip already-visited, visit,
push decision targets (Python pushes true then false and pops from the
end; here the stack head is the pop end, so false is pushed on top). An id
absent from the node list is visited without expanding (unreachable in the
validator, whose edge checks have already passed). The fuel bound
`2 * nodes + 1` dominates the loop: at most two pushes per first visit of
one of the at most `nodes.length` ids, plus the initial element. -/
def dfs (nodes : List WorkflowNode) :
    Nat → List String → List String → List String
  | 0, reachable, _ => reachable
  | _ + 1, reachable, [] => reachable
  | fuel + 1, reachable, cur :: stack =>
    if cur ∈ reachable then dfs nodes fuel reachable stack
    else
      match findNode nodes cur with
      | some (.decision _ _ t f _) =>
        dfs nodes fuel (cur :: reachable) (f :: t :: stack)
      | _ => dfs nodes fuel (cur :: reachable) stack

/-- `validate_workflow_graph` from pipeline/validate_workflow.py (lines
13-47): unique ids, known start node, resolvable decision edges, and full
reachability from the start node. -/
def validate_workflow_graph (workflow : Workflow) : Except String Unit :=
  let node_ids := workflow.nodes.map (fun n => n.node_id)
  if ¬ node_ids.Nodup then
    .error "Duplicate node_id detected in workflow.nodes"
  else if (findNode workflow.nodes workflow.start_node_id).isNone then
    .error ("start_node_id not found: " ++ workflow.start_node_id)
  else
    match edgesOk workflow.nodes workflow.nodes with
    | .error e => .error e
    | .ok _ =>
      let reachable := dfs workflow.nodes (2 * workflow.nodes.length + 1)
        [] [workflow.start_node_id]
      let unreachable := node_ids.filter (fun nid => decide (nid ∉ reachable))
      if unreachable ≠ [] then .error "Unreachable nodes detected"
      else .ok ()

end ValidateWorkflow

open SynthesizeWorkflow ValidateWorkflow SchemasWorkflow in
/-- C3: for every `ExtractionOutput`, `synthesize_workflow` returns a
workflow with exactly the seven nodes d0001-d0003 (decision), a0001-a0002
(action), e0001-e0002 (end) in that order, whose start node is the
population decision node d0001 (condition `in001 == true`), whose
`requires_human_review` is true, whose workflow_id is the guideline id
followed by `__v1`, and which `validate_workflow_graph` accepts. -/
theorem claim_C3_synthesize_workflow
    (ex : SchemasExtraction.ExtractionOutput) :
    (synthesize_workflow ex).nodes.map (fun n => (n.node_id, n.node_type)) =
      [("d0001", "decision"), ("d0002", "decision"), ("d0003", "decision"),
       ("a0001", "action"), ("a0002", "action"), ("e0001", "end"),
       ("e0002", "end")] ∧
    (synthesize_workflow ex).start_node_id = "d0001" ∧
    (∃ cits, (synthesize_workflow ex).nodes.head? =
      some (.decision "d0001" "in001 == true" "d0002" "e0001" cits)) ∧
    (synthesize_workflow ex).requires_human_review = true ∧
    (synthesize_workflow ex).workflow_id = ex.guideline_id ++ "__v1" ∧
    validate_workflow_graph (synthesize_workflow ex) = .ok () := by
  refine ⟨rfl, rfl, ⟨_, rfl⟩, rfl, rfl, rfl⟩

namespace NormalizeMod

open SchemasExtraction

/-- `NormalizeConfig` from pipeline/normalize.py. The float threshold is
modelled as a rational (comparisons are exact at the values used). -/
structure NormalizeConfig where
  min_chars : Int := 10
  fuzzy_threshold : Rat := 94 / 100
  max_fuzzy_comp_per_type : Int := 8000
  citation_tighten_max_window : Int := 4

/-- The apostrophe character (code 39). -/
def aposChar : Char := Char.ofNat 39

/-- The right single quotation mark (code 0x2019). -/
def rsquoChar : Char := Char.ofNat 0x2019

/-- The bullet character (code 0x2022). -/
def bulletChar : Char := Char.ofNat 0x2022

/-- `_DASHES_RE`: the dash variants U+2010 through U+2014. -/
def isDashVariant (c : Char) : Bool :=
  0x2010 ≤ c.val.toNat ∧ c.val.toNat ≤ 0x2014

/-- Python `\w` (word character). Non-ASCII codepoints are treated as word
characters, which is correct for the accented letters this pipeline
processes; the claims proved below do not depend on the classification of
exotic codepoints. -/
def isPyWordChar (c : Char) : Bool :=
  c.isAlphanum || c = '_' || 0x80 ≤ c.val.toNat

/-- The punctuation kept by `_KEEP_PUNCT_RE`: `/ % . : - ( ) ’ '`. -/
def keepPunct : List Char :=
  ['/', '%', '.', ':', '-', '(', ')', rsquoChar, aposChar]

/-- The punctuation kept by `tokenize`: `/ % .` and the apostrophe. -/
def tokenKeep : List Char := ['/', '%', '.', aposChar]

/-- `_WS_RE.sub(" ", t)` body: collapse every whitespace run to one
space, with structural fuel bounded by the list length. -/
def collapseWsF : Nat → List Char → List Char
  | 0, l => l
  | _ + 1, [] => []
  | fuel + 1, c :: rest =>
    if c.isWhitespace then
      ' ' :: collapseWsF fuel (rest.dropWhile Char.isWhitespace)
    else c :: collapseWsF fuel rest

/-- `_WS_RE.sub(" ", t)`: collapse every whitespace run to one space. -/
def collapseWs (l : List Char) : List Char := collapseWsF l.length l

/-- `t.replace("•", "- ")`. -/
def replaceBullet : List Char → List Char
  | [] => []
  | c :: rest =>
    if c = bulletChar then '-' :: ' ' :: replaceBullet rest
    else c :: replaceBullet rest

/-- Python `str.lower()` (ASCII case mapping; accented characters pass
through, which only affects keyword matching on text that the claims do
not constrain). -/
def lowerStr (s : String) : String := String.mk (s.data.map Char.toLower)

/-- `normalize_text` from pipeline/normalize.py (lines 52-61). -/
def normalize_text (s : String) : String :=
  let t := ExtractMod.stripChars s.data
  let t := t.map (fun c => if isDashVariant c then '-' else c)
  let t := replaceBullet t
  let t := t.filter
    (fun c => isPyWordChar c || c.isWhitespace || keepPunct.contains c)
  let t := ExtractMod.stripChars (collapseWs t)
  let t := if t.getLast? = some ':' then ExtractMod.stripChars t.dropLast
           else t
  String.mk t

/-- Split a character list on single spaces (Python `t.split(" ")`),
dropping empty pieces as the `if x` filter in `tokenize` does. -/
def splitOnSpaceF : Nat → List Char → List String
  | 0, _ => []
  | _ + 1, [] => []
  | fuel + 1, c :: cs =>
    let piece := (c :: cs).takeWhile (fun x => x ≠ ' ')
    let rest := ((c :: cs).dropWhile (fun x => x ≠ ' ')).drop 1
    if piece.isEmpty then splitOnSpaceF fuel rest
    else String.mk piece :: splitOnSpaceF fuel rest

/-- Split a character list on single spaces (Python `t.split(" ")`),
dropping empty pieces as the `if x` filter in `tokenize` does. -/
def splitOnSpace (l : List Char) : List String := splitOnSpaceF l.length l

/-- `tokenize` from pipeline/normalize.py (lines 64-69). -/
def tokenize (s : String) : List String :=
  let t := s.data.map Char.toLower
  let t := t.map (fun c => if isDashVariant c then ' ' else c)
  let t := t.map (fun c =>
    if isPyWordChar c || c.isWhitespace || tokenKeep.contains c then c
    else ' ')
  splitOnSpace (ExtractMod.stripChars (collapseWs t))

/-- The `_STOP` stopword set. -/
def _STOP : List String :=
  ["the", "a", "an", "and", "or", "of", "to", "in", "for", "with", "on",
   "at", "by", "as", "is", "are",
   "le", "la", "les", "un", "une", "des", "et", "ou", "de", "du", "au",
   "aux", "dans", "pour", "avec", "sur", "chez", "en", "est", "sont",
   "être"]

/-- The `_HEADER_TOKENS` set. -/
def _HEADER_TOKENS : List String :=
  ["table", "figure", "annexe", "référence", "references",
   "médicament", "médicaments", "medicament", "medicaments",
   "posologie", "dose", "doses", "dosage",
   "modalités", "modalites", "ajustement",
   "contre-indications", "contreindications", "contraindications",
   "effets", "indésirables", "indesirables", "adverse", "effects",
   "classe", "class",
   "sbp", "dbp", "ta", "pa", "bp", "mmhg", "mg", "g", "ml",
   "bid", "tid", "qid", "po"]

/-- Python `str.isdigit` (ASCII digits suffice here). -/
def pyIsDigit (s : String) : Bool :=
  !s.data.isEmpty && s.data.all Char.isDigit

/-- Strict lexicographic string order (Python `<` on strings). -/
def strLt (a b : String) : Bool := decide (a < b)

/-- `fingerprint` from pipeline/normalize.py (lines 72-81): tokenize, drop
stopwords, keep numeric or length-2-plus tokens, sort, join. -/
def fingerprint (s : String) : String :=
  let toks := tokenize s
  let kept := toks.filter (fun tok =>
    !_STOP.contains tok && (pyIsDigit tok || 2 ≤ tok.length))
  String.intercalate " " (PyUtil.sortedBy strLt kept)

/-- `looks_like_header_or_junk` from pipeline/normalize.py (lines 84-99). -/
def looks_like_header_or_junk (stmt : String) (cfg : NormalizeConfig) :
    Bool :=
  if (stmt.length : Int) < cfg.min_chars then true
  else
    let toks := tokenize stmt
    if toks.isEmpty then true
    else
      let header_hits := (toks.filter (fun x => _HEADER_TOKENS.contains x)).length
      if 2 ≤ header_hits ∧ toks.length ≤ 10 then true
      else if toks.headD "" ∈ ["table", "figure", "annexe"] then true
      else false

/-- Python `sub in s` (contiguous substring containment). -/
def strContains (s sub : String) : Bool :=
  decide (List.IsInfix sub.data s.data)

/-- `any(k in s for k in ks)`. -/
def containsAny (s : String) (ks : List String) : Bool :=
  ks.any (fun k => strContains s k)

end NormalizeMod

namespace NormalizeMod

open SchemasExtraction

/-- Whether a word boundary precedes a word character here: start of text
or previous character not a word character. -/
def boundaryBefore : Option Char → Bool
  | none => true
  | some c => !isPyWordChar c

/-- Match one of the units `mmhg|mg|g|ml` (regex alternation order) at the
head of the list, requiring a word boundary after it. -/
def unitBoundaryAt (cs : List Char) : Bool :=
  ["mmhg", "mg", "g", "ml"].any (fun u =>
    u.data.isPrefixOf cs &&
      (match (cs.drop u.length).head? with
       | none => true
       | some c2 => !isPyWordChar c2))

/-- `re.search(r"\b(\d{2,3})\s*(mmhg|mg|g|ml)\b", s)`: some maximal digit
run of length 2 or 3 starting at a word boundary is followed, after
optional whitespace, by one of the units with a word boundary after it.
(A longer digit run cannot match: no interior position is a word boundary
and a trailing digit blocks the unit.) -/
def thresholdScan : Option Char → List Char → Bool
  | _, [] => false
  | prev, c :: rest =>
    (boundaryBefore prev && c.isDigit &&
      (let digits := (c :: rest).takeWhile Char.isDigit
       (digits.length = 2 || digits.length = 3) &&
         unitBoundaryAt (((c :: rest).dropWhile Char.isDigit).dropWhile
           Char.isWhitespace))) ||
    thresholdScan (some c) rest

/-- `refine_fact_type` from pipeline/normalize.py (lines 102-134). -/
def refine_fact_type (stmt : String) (current : FactType) : FactType :=
  let s := lowerStr stmt
  if containsAny s ["contre-indication", "contre indication", "contraindication",
      "do not", "ne pas", "éviter", "eviter"] then
    FactType.contraindication
  else if containsAny s ["exclusion", "grossesse", "allaitement", "pregnancy",
      "breastfeeding"] then
    FactType.exclusion
  else if containsAny s ["urgence", "urgent", "immédiat", "immediat",
      "emergency", "immediately", "référer", "refer"] then
    FactType.red_flag
  else if (thresholdScan none s.data ||
      containsAny s ["≥", ">=", "<=", ">", "<"]) &&
      (current == FactType.other || current == FactType.follow_up ||
        current == FactType.diagnostic) then
    FactType.threshold
  else if containsAny s ["suivi", "réévaluation", "reevaluation", "monitor",
      "reassess", "follow-up", "follow up", "répéter", "repeter", "mesurer",
      "measure"] && current == FactType.other then
    FactType.follow_up
  else if containsAny s ["prescrire", "initier", "commencer", "start",
      "initiate", "titrer", "titrate", "administrer", "administer"] &&
      current == FactType.other then
    FactType.action
  else if current == FactType.population &&
      containsAny s ["contre-indication", "contre indication",
        "contraindication"] then
    FactType.contraindication
  else if current == FactType.population &&
      containsAny s ["apparition", "aggravation", "signes", "symptômes",
        "symptomes", "atteinte des organes cibles"] then
    FactType.follow_up
  else current

/-- `refine_strength` from pipeline/normalize.py (lines 137-155). -/
def refine_strength (stmt : String) (current : Strength)
    (fact_type : FactType) : Strength :=
  let s := lowerStr stmt
  if containsAny s ["do not", "ne pas", "jamais", "never",
      "contre-indication", "contraindication", "doit", "must", "required"] then
    Strength.must
  else if containsAny s ["devrait", "should", "recommand", "recommended",
      "recommandé", "recommandee"] then
    Strength.should
  else if containsAny s ["considérer", "consider", "peut être envisagé",
      "peut etre envisage", "may", "peut"] then
    (if strContains s "consid" || strContains s "envisag" then
      Strength.consider
     else Strength.may)
  else if fact_type == FactType.exclusion ||
      fact_type == FactType.contraindication then
    Strength.must
  else if current == Strength.must &&
      !containsAny s ["doit", "must", "ne pas", "do not", "recommand",
        "should", "devrait"] then
    Strength.unclear
  else current

/-- `compute_requires_human_review` from pipeline/normalize.py (lines
158-161). -/
def compute_requires_human_review (strength : Strength) (current : Bool) :
    Bool :=
  if strength == Strength.may || strength == Strength.consider ||
      strength == Strength.unclear then true
  else current

/-- `citation_key` from pipeline/normalize.py. -/
def citation_key (c : Citation) : String × Int × Int :=
  (c.chunk_id, c.line_start, c.line_end)

/-- One step of the `best` dict construction in `merge_citations`: insert
a new key at the end, or upgrade a quoteless stored citation to one that
carries a quote. -/
def bestInsert (acc : List ((String × Int × Int) × Citation)) (c : Citation) :
    List ((String × Int × Int) × Citation) :=
  let k := citation_key c
  match acc.find? (fun p => p.1 == k) with
  | none => acc ++ [(k, c)]
  | some old =>
    if old.2.quote = none ∧ c.quote ≠ none then
      acc.map (fun p => if p.1 == k then (k, c) else p)
    else acc

/-- `merge_citations` from pipeline/normalize.py (lines 168-180):
deduplicate by key (preferring a quoted citation over a quoteless one),
then sort by key. -/
def merge_citations (cits : List Citation) : List Citation :=
  let best := cits.foldl bestInsert []
  PyUtil.sortedBy SynthesizeWorkflow.citLt (best.map (fun p => p.2))

/-- The sort key order of `choose_rep`: longer statement first, ties by
smaller fact_id. -/
def repLt (a b : ExtractedFact) : Bool :=
  decide (b.statement.length < a.statement.length ∨
    (a.statement.length = b.statement.length ∧ a.fact_id < b.fact_id))

/-- `choose_rep` from pipeline/normalize.py (lines 183-184), on a
non-empty group given as head and tail. -/
def choose_rep (f0 : ExtractedFact) (facts : List ExtractedFact) :
    ExtractedFact :=
  (PyUtil.sortedBy repLt (f0 :: facts)).headD f0

/-- The merged optional fields computed by `merge_optional_fields`
(pipeline/normalize.py lines 187-212): the representative's value, else
the first present value in group order. -/
structure MergedOptionals where
  subject : Option String
  condition : Option String
  action : Option String
  notes : Option String
  raw : Option String

/-- `merge_optional_fields` from pipeline/normalize.py. -/
def merge_optional_fields (facts : List ExtractedFact)
    (rep : ExtractedFact) : MergedOptionals :=
  { subject := rep.subject <|> facts.findSome? (fun f => f.subject),
    condition := rep.condition <|> facts.findSome? (fun f => f.condition),
    action := rep.action <|> facts.findSome? (fun f => f.action),
    notes := rep.notes <|> facts.findSome? (fun f => f.notes),
    raw := rep.raw <|> facts.findSome? (fun f => f.raw) }

/-- The rank used by `max(..., key=...)` over strengths:
`[UNCLEAR, MAY, CONSIDER, SHOULD, MUST].index(s)`. -/
def strengthRank : Strength → Nat
  | .unclear => 0
  | .may => 1
  | .consider => 2
  | .should => 3
  | .must => 4

/-- Python `max(iterable, key=strengthRank)` over a non-empty list:
keeps the first maximum. -/
def maxStrength (s0 : Strength) (rest : List Strength) : Strength :=
  rest.foldl (fun best x => if strengthRank best < strengthRank x then x
    else best) s0

end NormalizeMod

namespace NormalizeMod

open SchemasExtraction

/-- The inner `for j in range(i+1, len(facts))` loop of fuzzy dedup
(pipeline/normalize.py lines 357-368): skip used indices, count a
comparison, stop with a warning when the cap is exceeded, otherwise group
a similar statement and mark it used. Returns the grouped indices (in
order), the updated used set, comparison count, and warnings. -/
def innerLoopF (sim : String → String → Bool) (cap : Int) (ftv : String)
    (arr : List ExtractedFact) (a : String) :
    Nat → Nat → List Nat → Nat → List String →
    List Nat × List Nat × Nat × List String
  | 0, _, used, comps, warn => ([], used, comps, warn)
  | fuel + 1, j, used, comps, warn =>
    if h : j < arr.length then
      if j ∈ used then innerLoopF sim cap ftv arr a fuel (j + 1) used comps warn
      else
        let comps2 := comps + 1
        if (comps2 : Int) > cap then
          ([], used, comps2,
            warn ++ ["Step6: fuzzy scan capped for " ++ ftv ++
              "; remaining kept as-is."])
        else
          if sim a (lowerStr (arr.get ⟨j, h⟩).statement) then
            let r := innerLoopF sim cap ftv arr a fuel (j + 1) (j :: used)
              comps2 warn
            (j :: r.1, r.2)
          else innerLoopF sim cap ftv arr a fuel (j + 1) used comps2 warn
    else ([], used, comps, warn)

/-- The inner loop entry point: the fuel `arr.length - j` covers every
index the Python loop visits. -/
def innerLoop (sim : String → String → Bool) (cap : Int) (ftv : String)
    (arr : List ExtractedFact) (a : String) (j : Nat) (used : List Nat)
    (comps : Nat) (warn : List String) :
    List Nat × List Nat × Nat × List String :=
  innerLoopF sim cap ftv arr a (arr.length - j) j used comps warn

/-- The outer `for i in range(len(facts))` loop of fuzzy dedup (lines
350-369): each not-yet-used index starts a group seeded with itself plus
whatever the inner loop gathers. -/
def outerLoopF (sim : String → String → Bool) (cap : Int) (ftv : String)
    (arr : List ExtractedFact) :
    Nat → Nat → List Nat → Nat → List String →
    List (List ExtractedFact) × List String
  | 0, _, _, _, warn => ([], warn)
  | fuel + 1, i, used, comps, warn =>
    if h : i < arr.length then
      if i ∈ used then outerLoopF sim cap ftv arr fuel (i + 1) used comps warn
      else
        let a := arr.get ⟨i, h⟩
        let r := innerLoop sim cap ftv arr (lowerStr a.statement) (i + 1)
          (i :: used) comps warn
        let group := a :: r.1.filterMap (fun j => arr.get? j)
        let rest := outerLoopF sim cap ftv arr fuel (i + 1) r.2.1 r.2.2.1
          r.2.2.2
        (group :: rest.1, rest.2)
    else ([], warn)

/-- The outer loop entry point: the fuel `arr.length - i` covers every
index the Python loop visits. -/
def outerLoop (sim : String → String → Bool) (cap : Int) (ftv : String)
    (arr : List ExtractedFact) (i : Nat) (used : List Nat) (comps : Nat)
    (warn : List String) : List (List ExtractedFact) × List String :=
  outerLoopF sim cap ftv arr (arr.length - i) i used comps warn

/-- Sort order of the fuzzy stage: lowercased statement. -/
def stmtLowerLt (a b : ExtractedFact) : Bool :=
  strLt (lowerStr a.statement) (lowerStr b.statement)

/-- The merged fact built for a duplicate group (both the exact and the
fuzzy stage construct it identically, lines 320-331 and 375-386). -/
def mergeGroup (ft : FactType) (f0 : ExtractedFact)
    (fs : List ExtractedFact) : ExtractedFact :=
  let facts := f0 :: fs
  let rep := choose_rep f0 fs
  let mo := merge_optional_fields facts rep
  { fact_id := rep.fact_id,
    fact_type := ft,
    statement := rep.statement,
    strength := maxStrength f0.strength (fs.map (fun x => x.strength)),
    requires_human_review := facts.any (fun x => x.requires_human_review),
    subject := mo.subject,
    condition := mo.condition,
    action := mo.action,
    notes := mo.notes,
    citations := merge_citations ((facts.map (fun x => x.citations)).flatten),
    raw := mo.raw }

/-- `buckets.setdefault(key, []).append(f)` over an insertion-ordered
dict (one entry per key, new keys appended at the end): groups are
non-empty by construction (head plus later members). -/
def bucketAdd [BEq κ] :
    List (κ × ExtractedFact × List ExtractedFact) → κ → ExtractedFact →
    List (κ × ExtractedFact × List ExtractedFact)
  | [], k, f => [(k, f, [])]
  | (k0, g0, gs) :: rest, k, f =>
    if k0 == k then (k0, g0, gs ++ [f]) :: rest
    else (k0, g0, gs) :: bucketAdd rest k f

/-- The exact-dedup pass over the fingerprint buckets (lines 311-332). -/
def stage2 : List ((FactType × String) × ExtractedFact × List ExtractedFact) →
    List ExtractedFact × Nat
  | [] => ([], 0)
  | (k, f0, fs) :: rest =>
    let r := stage2 rest
    match fs with
    | [] => (f0 :: r.1, r.2)
    | _ :: _ => (mergeGroup k.1 f0 fs :: r.1, r.2 + fs.length)

/-- Emit one greedy group (lines 370-387): a singleton passes through, a
larger group is merged and counted. -/
def groupStep (ft : FactType) (acc : List ExtractedFact × Nat)
    (g : List ExtractedFact) : List ExtractedFact × Nat :=
  match g with
  | [] => acc
  | [x] => (acc.1 ++ [x], acc.2)
  | x :: y :: rest2 =>
    (acc.1 ++ [mergeGroup ft x (y :: rest2)], acc.2 + (y :: rest2).length)

/-- One fuzzy bucket (lines 345-387): sort by lowercased statement, run
the greedy grouping, merge each group of size over one. -/
def fuzzyBucket (sim : String → String → Bool) (cap : Int) (ft : FactType)
    (f0 : ExtractedFact) (fs : List ExtractedFact) (warn : List String) :
    List ExtractedFact × Nat × List String :=
  let sortedFacts := PyUtil.sortedBy stmtLowerLt (f0 :: fs)
  let r := outerLoop sim cap ft.value sortedFacts 0 [] 0 warn
  let step := r.1.foldl (groupStep ft) ([], 0)
  (step.1, step.2, r.2)

/-- The fuzzy-dedup pass over all fact-type buckets (lines 337-390). -/
def stage3 (sim : String → String → Bool) (cap : Int) :
    List (FactType × ExtractedFact × List ExtractedFact) → List String →
    List ExtractedFact × Nat × List String
  | [], warn => ([], 0, warn)
  | (ft, f0, fs) :: rest, warn =>
    let b := fuzzyBucket sim cap ft f0 fs warn
    let r := stage3 sim cap rest b.2.2
    (b.1 ++ r.1, b.2.1 + r.2.1, r.2.2)

/-- Python `range(lo, hi + 1)` over `Int`. -/
def intRange (lo hi : Int) : List Int :=
  (List.range (hi + 1 - lo).toNat).map (fun k => lo + k)

/-- The sliding-window containment check of `_tighten_citation_span` for
one window width `w`. -/
def windowAt (stmt : String) (span : List (Int × String)) (w : Nat) :
    Option (Int × Int) :=
  (List.range (span.length + 1 - w)).findSome? (fun i =>
    let window := (span.drop i).take w
    let joined := String.intercalate " " (window.map (fun q => q.2))
    if strContains joined stmt then
      match window.head?, window.getLast? with
      | some q0, some q1 => some (q0.1, q1.1)
      | _, _ => none
    else none)

/-- The `for w in range(2, max_window + 1)` loop body, with structural
fuel bounded by the number of remaining widths. -/
def windowLoopF (stmt : String) (span : List (Int × String)) (maxw : Nat) :
    Nat → Nat → Option (Int × Int)
  | 0, _ => none
  | fuel + 1, w =>
    if w > maxw then none
    else
      match windowAt stmt span w with
      | some r => some r
      | none => windowLoopF stmt span maxw fuel (w + 1)

/-- The `for w in range(2, max_window + 1)` loop. -/
def windowLoop (stmt : String) (span : List (Int × String)) (w maxw : Nat) :
    Option (Int × Int) :=
  windowLoopF stmt span maxw (maxw + 1 - w) w

/-- `_tighten_citation_span` from pipeline/normalize.py (lines 219-263). -/
def _tighten_citation_span (statement : String) (citation : Citation)
    (line_text_by_no : Int → Option String) (max_window : Int) : Citation :=
  let stmt_norm := lowerStr (normalize_text statement)
  let p := if citation.line_end < citation.line_start then
    (citation.line_end, citation.line_start)
  else (citation.line_start, citation.line_end)
  let span := (intRange p.1 p.2).filterMap (fun n =>
    (line_text_by_no n).map (fun txt => (n, lowerStr (normalize_text txt))))
  if span.isEmpty || stmt_norm.data.isEmpty then citation
  else
    match span.findSome? (fun q =>
        if strContains q.2 stmt_norm then some q.1 else none) with
    | some n => { citation with line_start := n, line_end := n }
    | none =>
      match windowLoop stmt_norm span 2 (max 2 max_window).toNat with
      | some r => { citation with line_start := r.1, line_end := r.2 }
      | none => citation

/-- Tighten all citations of one fact, counting changed spans. -/
def tightenFact (f : ExtractedFact) (lineMap : Int → Option String)
    (maxw : Int) : ExtractedFact × Nat :=
  let step := f.citations.foldl (fun (acc : List Citation × Nat) c =>
    let t := _tighten_citation_span f.statement c lineMap maxw
    (acc.1 ++ [t],
     acc.2 + (if (t.line_start, t.line_end) ≠ (c.line_start, c.line_end)
              then 1 else 0))) ([], 0)
  ({ f with citations := step.1 }, step.2)

/-- The citation-tightening pass (lines 393-427). -/
def stage35 (facts : List ExtractedFact) (lineMap : Int → Option String)
    (maxw : Int) : List ExtractedFact × Nat :=
  match facts with
  | [] => ([], 0)
  | f :: rest =>
    let t := tightenFact f lineMap maxw
    let r := stage35 rest lineMap maxw
    (t.1 :: r.1, t.2 + r.2)

/-- The final deterministic sort key: `(fact_type.value, lowercased
statement, fact_id)`. -/
def finalLt (a b : ExtractedFact) : Bool :=
  decide (a.fact_type.value < b.fact_type.value ∨
    (a.fact_type.value = b.fact_type.value ∧
      (lowerStr a.statement < lowerStr b.statement ∨
        (lowerStr a.statement = lowerStr b.statement ∧
          a.fact_id < b.fact_id))))

/-- Fresh sequential fact ids `f0001, f0002, ...` (lines 431-447). -/
def reId (idx : Nat) : List ExtractedFact → List ExtractedFact
  | [] => []
  | f :: rest =>
    { f with fact_id := "f" ++ Chunking.padZeros4 idx } :: reId (idx + 1) rest

/-- `{**extraction.meta, "step6": v}`: replace an existing key in place,
else append. -/
def metaSet (m : List (String × MetaEntry)) (k : String) (v : MetaEntry) :
    List (String × MetaEntry) :=
  if m.any (fun p => p.1 == k) then
    m.map (fun p => if p.1 == k then (k, v) else p)
  else m ++ [(k, v)]

/-- Dict lookup on the meta association list. -/
def metaLookup (m : List (String × MetaEntry)) (k : String) :
    Option MetaEntry :=
  (m.find? (fun p => p.1 == k)).map (fun p => p.2)

/-- The per-fact rewrite of stage 1 (lines 283-301): refined type, refined
strength, recomputed human-review flag, normalized statement. -/
def mkKept (f : ExtractedFact) (stmt : String) : ExtractedFact :=
  let new_type := refine_fact_type stmt f.fact_type
  let new_strength := refine_strength stmt f.strength new_type
  let new_rhr := compute_requires_human_review new_strength
    f.requires_human_review
  { fact_id := f.fact_id, fact_type := new_type, statement := stmt,
    strength := new_strength, requires_human_review := new_rhr,
    subject := f.subject, condition := f.condition, action := f.action,
    notes := f.notes, citations := f.citations, raw := f.raw }

/-- Stage 1 (lines 274-301): normalize statements, drop header/junk. -/
def stage1 (cfg : NormalizeConfig) :
    List ExtractedFact → List ExtractedFact × Nat
  | [] => ([], 0)
  | f :: rest =>
    let r := stage1 cfg rest
    let stmt := normalize_text f.statement
    if looks_like_header_or_junk stmt cfg then (r.1, r.2 + 1)
    else (mkKept f stmt :: r.1, r.2)

/-- The similarity test of the fuzzy pass: the ratio of the two
lowercased statements meets the threshold (`>=` comparison). -/
def simOf (ratioFn : String → String → Rat) (cfg : NormalizeConfig) :
    String → String → Bool :=
  fun a b => decide (cfg.fuzzy_threshold ≤ ratioFn a b)

/-- The `(fact_type, fingerprint)` bucket map of the exact-dedup pass. -/
def bucketsOf (kept : List ExtractedFact) :
    List ((FactType × String) × ExtractedFact × List ExtractedFact) :=
  kept.foldl (fun acc f =>
    bucketAdd acc (f.fact_type, fingerprint f.statement) f) []

/-- The per-fact-type bucket map of the fuzzy pass. -/
def byTypeOf (facts : List ExtractedFact) :
    List (FactType × ExtractedFact × List ExtractedFact) :=
  facts.foldl (fun acc f => bucketAdd acc f.fact_type f) []

/-- The optional tightening pass: performed only when a line map was
supplied, returning the possibly-tightened facts and the changed count. -/
def tightenStage (line_text_by_no : Option (Int → Option String))
    (cfg : NormalizeConfig) (facts : List ExtractedFact) :
    List ExtractedFact × Option Nat :=
  match line_text_by_no with
  | none => (facts, none)
  | some lm =>
    let t := stage35 facts lm cfg.citation_tighten_max_window
    (t.1, some t.2)

/-- `normalize_and_canonicalize` from pipeline/normalize.py (lines
266-457). `ratioFn` abstracts difflib's `SequenceMatcher.ratio`
(third-party, specified only as an external similarity measure); the line
map parameter abstracts the optional `line_text_by_no` dict. -/
def normalize_and_canonicalize (ratioFn : String → String → Rat)
    (extraction : ExtractionOutput) (cfg : NormalizeConfig)
    (line_text_by_no : Option (Int → Option String)) :
    ExtractionOutput × List String :=
  let sim := simOf ratioFn cfg
  let s1 := stage1 cfg extraction.extracted_facts
  let w1 : List String :=
    if s1.2 ≠ 0 then
      ["Step6: dropped " ++ toString s1.2 ++
        " header/junk facts deterministically."]
    else []
  let s2 := stage2 (bucketsOf s1.1)
  let w2 : List String :=
    if s2.2 ≠ 0 then
      ["Step6: merged " ++ toString s2.2 ++
        " duplicates by canonical fingerprint."]
    else []
  let s3 := stage3 sim cfg.max_fuzzy_comp_per_type (byTypeOf s2.1) []
  let w3 : List String :=
    if s3.2.1 ≠ 0 then
      ["Step6: merged " ++ toString s3.2.1 ++
        " near-duplicates by fuzzy matching."]
    else []
  let tt := tightenStage line_text_by_no cfg s3.1
  let w4 : List String :=
    match tt.2 with
    | none => []
    | some changed =>
      if changed ≠ 0 then
        ["Step6: tightened " ++ toString changed ++
          " citation spans using exact statement matching."]
      else []
  let re_facts := reId 1 (PyUtil.sortedBy finalLt tt.1)
  let warningsNew := w1 ++ w2 ++ s3.2.2 ++ w3 ++ w4
  ({ guideline_id := extraction.guideline_id,
     model_id := extraction.model_id,
     chunking := extraction.chunking,
     extracted_facts := re_facts,
     warnings := extraction.warnings ++ warningsNew,
     meta := metaSet extraction.meta "step6"
       (.step6 s1.2 s2.2 s3.2.1) },
   warningsNew)

end NormalizeMod

namespace PyUtil

/-- Membership through sorted insertion. -/
theorem mem_insertLt (lt : α → α → Bool) (x : α) (l : List α) (y : α) :
    y ∈ insertLt lt x l ↔ y = x ∨ y ∈ l := by
  induction l with
  | nil => simp [insertLt]
  | cons z zs ih =>
    unfold insertLt
    by_cases h : lt z x = true
    · rw [if_pos h]
      simp [ih]
      tauto
    · rw [if_neg h]
      simp

/-- Membership is preserved by the stable sort. -/
theorem mem_sortedBy (lt : α → α → Bool) (l : List α) (y : α) :
    y ∈ sortedBy lt l ↔ y ∈ l := by
  induction l with
  | nil => simp [sortedBy]
  | cons x xs ih =>
    unfold sortedBy
    rw [mem_insertLt]
    simp [ih]

/-- Length through sorted insertion. -/
theorem length_insertLt (lt : α → α → Bool) (x : α) (l : List α) :
    (insertLt lt x l).length = l.length + 1 := by
  induction l with
  | nil => rfl
  | cons z zs ih =>
    unfold insertLt
    by_cases h : lt z x = true
    · rw [if_pos h]; simp [ih]
    · rw [if_neg h]; simp

/-- Length is preserved by the stable sort. -/
theorem length_sortedBy (lt : α → α → Bool) (l : List α) :
    (sortedBy lt l).length = l.length := by
  induction l with
  | nil => rfl
  | cons x xs ih =>
    unfold sortedBy
    rw [length_insertLt, ih]
    rfl

end PyUtil

namespace NormalizeMod

open SchemasExtraction

/-- The strengths that force the human-review flag. -/
def weakStrength (s : Strength) : Prop :=
  s = .may ∨ s = .consider ∨ s = .unclear

instance (s : Strength) : Decidable (weakStrength s) := by
  unfold weakStrength; infer_instance

/-- The per-fact invariant of claim C9. -/
def factInv (f : ExtractedFact) : Prop :=
  weakStrength f.strength → f.requires_human_review = true

/-- A weak strength forces the flag to true. -/
theorem compute_rhr_of_weak (s : Strength) (cur : Bool)
    (h : weakStrength s) : compute_requires_human_review s cur = true := by
  cases s <;> simp [compute_requires_human_review] <;>
    simp [weakStrength] at h

/-- A must/should strength leaves the flag unchanged. -/
theorem compute_rhr_of_strong (s : Strength) (cur : Bool)
    (h : s = .must ∨ s = .should) :
    compute_requires_human_review s cur = cur := by
  rcases h with h | h <;> subst h <;> rfl

/-- The flag is never turned off by the recomputation. -/
theorem compute_rhr_monotone (s : Strength) :
    compute_requires_human_review s true = true := by
  cases s <;> rfl

/-- Stage-1 facts satisfy the invariant by construction. -/
theorem mkKept_inv (f : ExtractedFact) (stmt : String) :
    factInv (mkKept f stmt) := by
  intro hw
  exact compute_rhr_of_weak _ _ hw

/-- All facts kept by stage 1 satisfy the invariant. -/
theorem stage1_inv (cfg : NormalizeConfig) (l : List ExtractedFact) :
    ∀ f ∈ (stage1 cfg l).1, factInv f := by
  induction l with
  | nil => simp [stage1]
  | cons g rest ih =>
    intro f hf
    unfold stage1 at hf
    by_cases hj : looks_like_header_or_junk (normalize_text g.statement) cfg
      = true
    · rw [if_pos hj] at hf
      exact ih f hf
    · rw [if_neg hj] at hf
      rcases List.mem_cons.mp hf with rfl | hf
      · exact mkKept_inv g (normalize_text g.statement)
      · exact ih f hf

/-- The folded maximum dominates the rank of every element. -/
theorem maxStrength_rank (s0 : Strength) (rest : List Strength) :
    ∀ s ∈ s0 :: rest, strengthRank s ≤ strengthRank (maxStrength s0 rest) := by
  induction rest generalizing s0 with
  | nil =>
    intro s hs
    simp at hs
    subst hs
    exact le_refl _
  | cons x xs ih =>
    intro s hs
    have hstep : maxStrength s0 (x :: xs) =
        maxStrength (if strengthRank s0 < strengthRank x then x else s0) xs :=
      rfl
    rw [hstep]
    set b := if strengthRank s0 < strengthRank x then x else s0 with hb
    have hs0 : strengthRank s0 ≤ strengthRank b := by
      rw [hb]; split <;> omega
    have hx : strengthRank x ≤ strengthRank b := by
      rw [hb]; split <;> omega
    rcases List.mem_cons.mp hs with rfl | hs
    · exact hs0.trans (ih b b (List.mem_cons_self b xs))
    · rcases List.mem_cons.mp hs with rfl | hs
      · exact hx.trans (ih b b (List.mem_cons_self b xs))
      · exact ih b s (List.mem_cons_of_mem b hs)

/-- Weak strengths are exactly ranks at most 2. -/
theorem weak_iff_rank (s : Strength) : weakStrength s ↔ strengthRank s ≤ 2 := by
  cases s <;> simp [weakStrength, strengthRank]

/-- A merged group satisfies the invariant when all its members do. -/
theorem mergeGroup_inv (ft : FactType) (f0 : ExtractedFact)
    (fs : List ExtractedFact) (h : ∀ f ∈ f0 :: fs, factInv f) :
    factInv (mergeGroup ft f0 fs) := by
  intro hw
  have hmax : weakStrength (maxStrength f0.strength
      (fs.map (fun x => x.strength))) := hw
  have hf0w : weakStrength f0.strength := by
    rw [weak_iff_rank]
    have := maxStrength_rank f0.strength (fs.map (fun x => x.strength))
      f0.strength (List.mem_cons_self _ _)
    rw [weak_iff_rank] at hmax
    omega
  have hf0 : f0.requires_human_review = true :=
    h f0 (List.mem_cons_self _ _) hf0w
  show (f0 :: fs).any (fun x => x.requires_human_review) = true
  simp [List.any_cons, hf0]

end NormalizeMod

namespace NormalizeMod

open SchemasExtraction

/-- Facts stored in a bucket map extended by `bucketAdd` all satisfy a
predicate preserved from the inputs. -/
theorem bucketAdd_pred [BEq κ] (P : ExtractedFact → Prop)
    (acc : List (κ × ExtractedFact × List ExtractedFact)) (k : κ)
    (f : ExtractedFact)
    (hacc : ∀ e ∈ acc, P e.2.1 ∧ ∀ x ∈ e.2.2, P x) (hf : P f) :
    ∀ e ∈ bucketAdd acc k f, P e.2.1 ∧ ∀ x ∈ e.2.2, P x := by
  induction acc with
  | nil =>
    intro e he
    simp [bucketAdd] at he
    subst he
    exact ⟨hf, by simp⟩
  | cons p rest ih =>
    obtain ⟨k0, g0, gs⟩ := p
    intro e he
    unfold bucketAdd at he
    by_cases hk : (k0 == k) = true
    · rw [if_pos hk] at he
      rcases List.mem_cons.mp he with rfl | he
      · refine ⟨(hacc _ (List.mem_cons_self _ _)).1, ?_⟩
        intro x hx
        rcases List.mem_append.mp hx with hx | hx
        · exact (hacc _ (List.mem_cons_self _ _)).2 x hx
        · simp at hx; subst hx; exact hf
      · exact hacc e (List.mem_cons_of_mem _ he)
    · rw [if_neg hk] at he
      rcases List.mem_cons.mp he with rfl | he
      · exact hacc _ (List.mem_cons_self _ _)
      · exact ih (fun e2 he2 => hacc e2 (List.mem_cons_of_mem _ he2)) e he

/-- Predicate preservation through a whole bucket fold. -/
theorem bucketFold_pred [BEq κ] (P : ExtractedFact → Prop)
    (keyf : ExtractedFact → κ) (l : List ExtractedFact) :
    ∀ (acc : List (κ × ExtractedFact × List ExtractedFact)),
    (∀ e ∈ acc, P e.2.1 ∧ ∀ x ∈ e.2.2, P x) → (∀ f ∈ l, P f) →
    ∀ e ∈ l.foldl (fun acc f => bucketAdd acc (keyf f) f) acc,
      P e.2.1 ∧ ∀ x ∈ e.2.2, P x := by
  induction l with
  | nil => intro acc hacc _ e he; exact hacc e he
  | cons f rest ih =>
    intro acc hacc hl e he
    exact ih (bucketAdd acc (keyf f) f)
      (bucketAdd_pred P acc (keyf f) f hacc
        (hl f (List.mem_cons_self _ _)))
      (fun x hx => hl x (List.mem_cons_of_mem _ hx)) e he

/-- The exact-dedup output satisfies the invariant when every bucketed
fact does. -/
theorem stage2_inv
    (buckets : List ((FactType × String) × ExtractedFact × List ExtractedFact))
    (h : ∀ e ∈ buckets, factInv e.2.1 ∧ ∀ x ∈ e.2.2, factInv x) :
    ∀ f ∈ (stage2 buckets).1, factInv f := by
  induction buckets with
  | nil => simp [stage2]
  | cons e rest ih =>
    obtain ⟨k, f0, fs⟩ := e
    intro f hf
    have he := h _ (List.mem_cons_self _ _)
    have hrest := fun e2 he2 => h e2 (List.mem_cons_of_mem _ he2)
    unfold stage2 at hf
    cases fs with
    | nil =>
      rcases List.mem_cons.mp hf with rfl | hf
      · exact he.1
      · exact ih hrest f hf
    | cons y ys =>
      rcases List.mem_cons.mp hf with rfl | hf
      · refine mergeGroup_inv k.1 f0 (y :: ys) ?_
        intro x hx
        rcases List.mem_cons.mp hx with rfl | hx
        · exact he.1
        · exact he.2 x hx
      · exact ih hrest f hf

/-- Every member of every group produced by the greedy fuzzy loop comes
from the sorted fact array (strong induction on the remaining indices). -/
theorem outerLoopF_groups_mem (sim : String → String → Bool) (cap : Int)
    (ftv : String) (arr : List ExtractedFact) :
    ∀ (fuel i : Nat) (used : List Nat) (comps : Nat) (warn : List String),
    ∀ g ∈ (outerLoopF sim cap ftv arr fuel i used comps warn).1,
      ∀ f ∈ g, f ∈ arr := by
  intro fuel
  induction fuel with
  | zero =>
    intro i used comps warn g hg f hf
    simp [outerLoopF] at hg
  | succ k ih =>
    intro i used comps warn g hg f hf
    unfold outerLoopF at hg
    by_cases h : i < arr.length
    · rw [dif_pos h] at hg
      by_cases hu : i ∈ used
      · rw [if_pos hu] at hg
        exact ih (i + 1) used comps warn g hg f hf
      · rw [if_neg hu] at hg
        rcases List.mem_cons.mp hg with rfl | hg
        · rcases List.mem_cons.mp hf with rfl | hf
          · exact List.get_mem arr _ _
          · obtain ⟨j, _, hj⟩ := List.mem_filterMap.mp hf
            exact List.get?_mem hj
        · exact ih (i + 1) _ _ _ g hg f hf
    · rw [dif_neg h] at hg
      simp at hg

/-- Every member of every group produced by the greedy fuzzy loop comes
from the sorted fact array. -/
theorem outerLoop_groups_mem (sim : String → String → Bool) (cap : Int)
    (ftv : String) (arr : List ExtractedFact) (i : Nat) (used : List Nat)
    (comps : Nat) (warn : List String) :
    ∀ g ∈ (outerLoop sim cap ftv arr i used comps warn).1, ∀ f ∈ g, f ∈ arr :=
  outerLoopF_groups_mem sim cap ftv arr (arr.length - i) i used comps warn

end NormalizeMod

namespace NormalizeMod

open SchemasExtraction

/-- Group emission preserves the invariant. -/
theorem groupStep_inv (ft : FactType) (acc : List ExtractedFact × Nat)
    (g : List ExtractedFact) (hacc : ∀ f ∈ acc.1, factInv f)
    (hg : ∀ f ∈ g, factInv f) : ∀ f ∈ (groupStep ft acc g).1, factInv f := by
  intro f hf
  cases g with
  | nil => exact hacc f hf
  | cons x rest =>
    cases rest with
    | nil =>
      rcases List.mem_append.mp hf with hf | hf
      · exact hacc f hf
      · simp at hf
        subst hf
        exact hg f (by simp)
    | cons y rest2 =>
      rcases List.mem_append.mp hf with hf | hf
      · exact hacc f hf
      · simp at hf
        subst hf
        exact mergeGroup_inv ft x (y :: rest2) hg

/-- Folding group emission over all groups preserves the invariant. -/
theorem groupsFold_inv (ft : FactType) (groups : List (List ExtractedFact))
    (h : ∀ g ∈ groups, ∀ f ∈ g, factInv f) :
    ∀ (acc : List ExtractedFact × Nat), (∀ f ∈ acc.1, factInv f) →
    ∀ f ∈ (groups.foldl (groupStep ft) acc).1, factInv f := by
  induction groups with
  | nil => intro acc hacc f hf; exact hacc f hf
  | cons g rest ih =>
    intro acc hacc f hf
    exact ih (fun g2 hg2 => h g2 (List.mem_cons_of_mem _ hg2))
      (groupStep ft acc g)
      (groupStep_inv ft acc g hacc (h g (List.mem_cons_self _ _))) f hf

/-- One fuzzy bucket preserves the invariant. -/
theorem fuzzyBucket_inv (sim : String → String → Bool) (cap : Int)
    (ft : FactType) (f0 : ExtractedFact) (fs : List ExtractedFact)
    (warn : List String) (h : ∀ f ∈ f0 :: fs, factInv f) :
    ∀ f ∈ (fuzzyBucket sim cap ft f0 fs warn).1, factInv f := by
  intro f hf
  have hsorted : ∀ f2 ∈ PyUtil.sortedBy stmtLowerLt (f0 :: fs), factInv f2 :=
    fun f2 hf2 => h f2 ((PyUtil.mem_sortedBy _ _ _).mp hf2)
  have hgroups : ∀ g ∈ (outerLoop sim cap ft.value
      (PyUtil.sortedBy stmtLowerLt (f0 :: fs)) 0 [] 0 warn).1,
      ∀ f2 ∈ g, factInv f2 := by
    intro g hg f2 hf2
    exact hsorted f2 (outerLoop_groups_mem sim cap ft.value _ 0
      [] 0 warn g hg f2 hf2)
  exact groupsFold_inv ft _ hgroups ([], 0) (by simp) f hf

/-- The whole fuzzy pass preserves the invariant. -/
theorem stage3_inv (sim : String → String → Bool) (cap : Int)
    (buckets : List (FactType × ExtractedFact × List ExtractedFact))
    (h : ∀ e ∈ buckets, factInv e.2.1 ∧ ∀ x ∈ e.2.2, factInv x) :
    ∀ (warn : List String), ∀ f ∈ (stage3 sim cap buckets warn).1, factInv f := by
  induction buckets with
  | nil => intro warn f hf; simp [stage3] at hf
  | cons e rest ih =>
    obtain ⟨ft, f0, fs⟩ := e
    intro warn f hf
    unfold stage3 at hf
    rcases List.mem_append.mp hf with hf | hf
    · refine fuzzyBucket_inv sim cap ft f0 fs warn ?_ f hf
      intro x hx
      rcases List.mem_cons.mp hx with rfl | hx
      · exact (h _ (List.mem_cons_self _ _)).1
      · exact (h _ (List.mem_cons_self _ _)).2 x hx
    · exact ih (fun e2 he2 => h e2 (List.mem_cons_of_mem _ he2)) _ f hf

/-- Tightening changes only citations, so the invariant survives. -/
theorem tightenFact_inv (f : ExtractedFact) (lm : Int → Option String)
    (mw : Int) (h : factInv f) : factInv (tightenFact f lm mw).1 :=
  fun hw => h hw

/-- The tightening pass preserves the invariant. -/
theorem stage35_inv (facts : List ExtractedFact) (lm : Int → Option String)
    (mw : Int) (h : ∀ f ∈ facts, factInv f) :
    ∀ f ∈ (stage35 facts lm mw).1, factInv f := by
  induction facts with
  | nil => simp [stage35]
  | cons g rest ih =>
    intro f hf
    unfold stage35 at hf
    rcases List.mem_cons.mp hf with rfl | hf
    · exact tightenFact_inv g lm mw (h g (List.mem_cons_self _ _))
    · exact ih (fun x hx => h x (List.mem_cons_of_mem _ hx)) f hf

/-- The optional tightening stage preserves the invariant. -/
theorem tightenStage_inv (lineMap : Option (Int → Option String))
    (cfg : NormalizeConfig) (facts : List ExtractedFact)
    (h : ∀ f ∈ facts, factInv f) :
    ∀ f ∈ (tightenStage lineMap cfg facts).1, factInv f := by
  cases lineMap with
  | none => exact h
  | some lm => exact stage35_inv facts lm cfg.citation_tighten_max_window h

/-- Re-identification changes only fact ids, so the invariant survives. -/
theorem reId_inv (idx : Nat) (l : List ExtractedFact)
    (h : ∀ f ∈ l, factInv f) : ∀ f ∈ reId idx l, factInv f := by
  induction l generalizing idx with
  | nil => simp [reId]
  | cons g rest ih =>
    intro f hf
    unfold reId at hf
    rcases List.mem_cons.mp hf with rfl | hf
    · exact fun hw => h g (List.mem_cons_self _ _) hw
    · exact ih (idx + 1) (fun x hx => h x (List.mem_cons_of_mem _ hx)) f hf

end NormalizeMod

namespace NormalizeMod

open SchemasExtraction

/-- The C9 invariant holds of every fact in the output of
`normalize_and_canonicalize`, for every input, config, similarity
function and optional line map. -/
theorem normalize_and_canonicalize_inv (ratioFn : String → String → Rat)
    (extraction : ExtractionOutput) (cfg : NormalizeConfig)
    (lm : Option (Int → Option String)) :
    ∀ f ∈ (normalize_and_canonicalize ratioFn extraction cfg
      lm).1.extracted_facts, factInv f := by
  intro f hf
  have h1 := stage1_inv cfg extraction.extracted_facts
  have hb1 := bucketFold_pred factInv
    (fun g => (g.fact_type, fingerprint g.statement))
    (stage1 cfg extraction.extracted_facts).1 [] (by simp) h1
  have h2 := stage2_inv
    (bucketsOf (stage1 cfg extraction.extracted_facts).1) hb1
  have hb2 := bucketFold_pred factInv (fun g => g.fact_type)
    (stage2 (bucketsOf (stage1 cfg extraction.extracted_facts).1)).1 []
    (by simp) h2
  have h3 := stage3_inv (simOf ratioFn cfg) cfg.max_fuzzy_comp_per_type
    (byTypeOf
      (stage2 (bucketsOf (stage1 cfg extraction.extracted_facts).1)).1)
    hb2 []
  have h4 := tightenStage_inv lm cfg _ h3
  have h5 : ∀ x ∈ PyUtil.sortedBy finalLt
      (tightenStage lm cfg
        (stage3 (simOf ratioFn cfg) cfg.max_fuzzy_comp_per_type
          (byTypeOf (stage2 (bucketsOf
            (stage1 cfg extraction.extracted_facts).1)).1) []).1).1,
      factInv x :=
    fun x hx => h4 x ((PyUtil.mem_sortedBy _ _ _).mp hx)
  exact reId_inv 1 _ h5 f hf

end NormalizeMod

namespace NormalizeMod

open SchemasExtraction

/-- A concrete input fact with weak strength (`consider`) and the
human-review flag set to false. -/
def demoC9In : ExtractedFact :=
  { fact_id := "f0007", fact_type := .action,
    statement := "Consider additional therapy options",
    strength := .consider, requires_human_review := false,
    citations := [{ chunk_id := "c0001", line_start := 3, line_end := 4 }] }

/-- A concrete extraction output holding only `demoC9In`. -/
def demoC9Ext : ExtractionOutput :=
  { guideline_id := "g1", model_id := "m1", extracted_facts := [demoC9In] }

/-- The result of normalizing `demoC9Ext` (zero similarity, no line map). -/
def demoC9Out : ExtractionOutput :=
  (normalize_and_canonicalize (fun _ _ => 0) demoC9Ext {} none).1

/-- The fact `demoC9Out` is expected to contain: same statement, strength
still `consider`, but the human-review flag forced to true. -/
def demoC9Fact : ExtractedFact :=
  { fact_id := "f0001", fact_type := .action,
    statement := "Consider additional therapy options",
    strength := .consider, requires_human_review := true,
    citations := [{ chunk_id := "c0001", line_start := 3, line_end := 4 }] }

end NormalizeMod

/-- C9: for every fact in the output of `normalize_and_canonicalize`, if
its refined strength is `may`, `consider` or `unclear` then its
`requires_human_review` flag is true, regardless of the input flag; and
for `must`/`should` the recomputation `compute_requires_human_review`
returns the previously computed flag unchanged, so the flag is never
forced to false. -/
theorem claim_C9_normalize_requires_human_review :
    (∀ (ratioFn : String → String → Rat)
       (extraction : SchemasExtraction.ExtractionOutput)
       (cfg : NormalizeMod.NormalizeConfig)
       (lm : Option (Int → Option String)),
       ∀ f ∈ (NormalizeMod.normalize_and_canonicalize ratioFn extraction
         cfg lm).1.extracted_facts,
         NormalizeMod.weakStrength f.strength →
           f.requires_human_review = true)
    ∧ (∀ (s : SchemasExtraction.Strength) (cur : Bool),
         s = .must ∨ s = .should →
           NormalizeMod.compute_requires_human_review s cur = cur)
    ∧ (∀ (s : SchemasExtraction.Strength),
         NormalizeMod.compute_requires_human_review s true = true) :=
  ⟨fun ratioFn extraction cfg lm f hf hw =>
     NormalizeMod.normalize_and_canonicalize_inv ratioFn extraction cfg
       lm f hf hw,
   fun s cur h => NormalizeMod.compute_rhr_of_strong s cur h,
   fun s => NormalizeMod.compute_rhr_monotone s⟩

set_option maxRecDepth 200000 in
/-- C9 witness: on the concrete input `demoC9Ext` (a single `consider`
fact whose flag is false), the output contains `demoC9Fact`, whose
strength is weak, and the claim theorem forces its flag to true. -/
theorem claim_C9_normalize_requires_human_review_witness :
    NormalizeMod.demoC9Fact ∈ NormalizeMod.demoC9Out.extracted_facts ∧
    NormalizeMod.demoC9Fact.requires_human_review = true :=
  ⟨by decide,
   claim_C9_normalize_requires_human_review.1 (fun _ _ => 0)
     NormalizeMod.demoC9Ext {} none NormalizeMod.demoC9Fact (by decide)
     (by decide)⟩

namespace NormalizeMod

open SchemasExtraction

/-- The inner fuzzy loop returns exactly the indices it marked used (in
reverse on top of the old used list); they are distinct, at least `j`,
in range, and previously unused. -/
theorem innerLoopF_spec (sim : String → String → Bool) (cap : Int)
    (ftv : String) (arr : List ExtractedFact) (a : String) :
    ∀ (fuel j : Nat) (used : List Nat) (comps : Nat) (warn : List String),
    (innerLoopF sim cap ftv arr a fuel j used comps warn).2.1 =
      (innerLoopF sim cap ftv arr a fuel j used comps warn).1.reverse ++ used ∧
    (innerLoopF sim cap ftv arr a fuel j used comps warn).1.Nodup ∧
    ∀ x ∈ (innerLoopF sim cap ftv arr a fuel j used comps warn).1,
      j ≤ x ∧ x < arr.length ∧ x ∉ used := by
  intro fuel
  induction fuel with
  | zero =>
    intro j used comps warn
    refine ⟨rfl, List.nodup_nil, ?_⟩
    intro x hx
    simp [innerLoopF] at hx
  | succ k ih =>
    intro j used comps warn
    unfold innerLoopF
    by_cases h : j < arr.length
    · rw [dif_pos h]
      by_cases hu : j ∈ used
      · rw [if_pos hu]
        obtain ⟨h1, h2, h3⟩ := ih (j + 1) used (comps) warn
        exact ⟨h1, h2, fun x hx => ⟨by have := (h3 x hx).1; omega,
          (h3 x hx).2.1, (h3 x hx).2.2⟩⟩
      · rw [if_neg hu]
        by_cases hc : ((comps + 1 : Nat) : Int) > cap
        · rw [if_pos hc]
          refine ⟨rfl, List.nodup_nil, ?_⟩
          intro x hx
          simp at hx
        · rw [if_neg hc]
          by_cases hs : sim a (lowerStr (arr.get ⟨j, h⟩).statement) = true
          · rw [if_pos hs]
            obtain ⟨h1, h2, h3⟩ := ih (j + 1) (j :: used) (comps + 1) warn
            refine ⟨?_, ?_, ?_⟩
            · show (innerLoopF sim cap ftv arr a k (j + 1) (j :: used)
                (comps + 1) warn).2.1 = _
              rw [h1]
              simp
            · refine List.Nodup.cons ?_ h2
              intro hj
              exact ((h3 j hj).2.2) (List.mem_cons_self _ _)
            · intro x hx
              rcases List.mem_cons.mp hx with rfl | hx
              · exact ⟨Nat.le_refl _, h, hu⟩
              · obtain ⟨ha, hb, hcc⟩ := h3 x hx
                exact ⟨by omega, hb, fun hm => hcc (List.mem_cons_of_mem _ hm)⟩
          · rw [if_neg hs]
            obtain ⟨h1, h2, h3⟩ := ih (j + 1) used (comps + 1) warn
            exact ⟨h1, h2, fun x hx => ⟨by have := (h3 x hx).1; omega,
              (h3 x hx).2.1, (h3 x hx).2.2⟩⟩
    · rw [dif_neg h]
      refine ⟨rfl, List.nodup_nil, ?_⟩
      intro x hx
      simp at hx

/-- Looking up in-range indices drops nothing. -/
theorem filterMapGet_length (arr : List ExtractedFact) (l : List Nat)
    (h : ∀ j ∈ l, j < arr.length) :
    (l.filterMap (fun j => arr.get? j)).length = l.length := by
  induction l with
  | nil => rfl
  | cons j rest ih =>
    have hj : arr.get? j = some (arr.get ⟨j, h j (List.mem_cons_self _ _)⟩) :=
      List.get?_eq_get (h j (List.mem_cons_self _ _))
    simp only [List.filterMap_cons, hj, List.length_cons]
    rw [ih (fun x hx => h x (List.mem_cons_of_mem _ hx))]

/-- The count of in-range indices at least `i` and not yet used. -/
def remCount (n i : Nat) (used : List Nat) : Nat :=
  ((Finset.range n).filter (fun x => i ≤ x ∧ x ∉ used)).card

/-- When `i` is past the end nothing remains. -/
theorem remCount_past (n i : Nat) (used : List Nat) (h : n ≤ i) :
    remCount n i used = 0 := by
  unfold remCount
  rw [Finset.filter_false_of_mem, Finset.card_empty]
  intro x hx
  rw [Finset.mem_range] at hx
  intro hc
  omega

/-- With no used indices, everything from index 0 remains. -/
theorem remCount_zero (n : Nat) : remCount n 0 [] = n := by
  unfold remCount
  rw [Finset.filter_true_of_mem, Finset.card_range]
  intro x hx
  exact ⟨Nat.zero_le _, List.not_mem_nil _⟩

end NormalizeMod

namespace NormalizeMod

open SchemasExtraction

/-- Skipping an already-used index leaves the remaining count unchanged. -/
theorem remCount_skip (n i : Nat) (used : List Nat) (h : i ∈ used) :
    remCount n i used = remCount n (i + 1) used := by
  unfold remCount
  apply congrArg Finset.card
  apply Finset.filter_congr
  intro x hx
  constructor
  · rintro ⟨h1, h2⟩
    have hne : x ≠ i := fun e => h2 (e ▸ h)
    exact ⟨by omega, h2⟩
  · rintro ⟨h1, h2⟩
    exact ⟨by omega, h2⟩

/-- Consuming a fresh in-range index removes exactly one. -/
theorem remCount_step (n i : Nat) (used : List Nat) (hn : i < n)
    (hu : i ∉ used) : remCount n i used = 1 + remCount n (i + 1) used := by
  unfold remCount
  have hins : (Finset.range n).filter (fun x => i ≤ x ∧ x ∉ used) =
      insert i ((Finset.range n).filter (fun x => i + 1 ≤ x ∧ x ∉ used)) := by
    ext x
    simp only [Finset.mem_filter, Finset.mem_insert, Finset.mem_range]
    constructor
    · rintro ⟨hx, hge, hnu⟩
      by_cases hxi : x = i
      · exact Or.inl hxi
      · exact Or.inr ⟨hx, by omega, hnu⟩
    · rintro (rfl | ⟨hx, hge, hnu⟩)
      · exact ⟨hn, Nat.le_refl _, hu⟩
      · exact ⟨hx, by omega, hnu⟩
  rw [hins, Finset.card_insert_of_not_mem]
  · omega
  · rw [Finset.mem_filter]
    rintro ⟨_, hge, _⟩
    omega

/-- Marking a distinct group of fresh indices used removes exactly the
group's size from the remaining count. -/
theorem remCount_removeGroup (n i : Nat) (used idxs : List Nat)
    (hnd : idxs.Nodup) (hb : ∀ x ∈ idxs, i + 1 ≤ x ∧ x < n ∧ x ∉ used) :
    remCount n (i + 1) (idxs.reverse ++ i :: used) + idxs.length =
      remCount n (i + 1) used := by
  unfold remCount
  set T := (Finset.range n).filter (fun x => i + 1 ≤ x ∧ x ∉ used) with hT
  have hsub : idxs.toFinset ⊆ T := by
    intro x hx
    rw [List.mem_toFinset] at hx
    obtain ⟨h1, h2, h3⟩ := hb x hx
    rw [hT, Finset.mem_filter, Finset.mem_range]
    exact ⟨h2, h1, h3⟩
  have hset : (Finset.range n).filter
      (fun x => i + 1 ≤ x ∧ x ∉ (idxs.reverse ++ i :: used)) =
      T \ idxs.toFinset := by
    ext x
    rw [Finset.mem_sdiff, hT]
    simp only [Finset.mem_filter, Finset.mem_range, List.mem_toFinset,
      List.mem_append, List.mem_reverse, List.mem_cons]
    constructor
    · rintro ⟨hx, hge, hnm⟩
      push_neg at hnm
      exact ⟨⟨hx, hge, hnm.2.2⟩, hnm.1⟩
    · rintro ⟨⟨hx, hge, hnu⟩, hni⟩
      refine ⟨hx, hge, ?_⟩
      rintro (hm | rfl | hm)
      · exact hni hm
      · omega
      · exact hnu hm
  rw [hset, Finset.card_sdiff hsub]
  have hcard : idxs.toFinset.card = idxs.length :=
    List.toFinset_card_of_nodup hnd
  have hle : idxs.toFinset.card ≤ T.card := Finset.card_le_card hsub
  omega

end NormalizeMod

namespace NormalizeMod

open SchemasExtraction

/-- The total size of the groups built by the greedy fuzzy loop is the
number of not-yet-used indices from `i` on. -/
theorem outerLoopF_count (sim : String → String → Bool) (cap : Int)
    (ftv : String) (arr : List ExtractedFact) :
    ∀ (fuel i : Nat), arr.length - i ≤ fuel →
    ∀ (used : List Nat) (comps : Nat) (warn : List String),
    ((outerLoopF sim cap ftv arr fuel i used comps warn).1.map
      List.length).sum = remCount arr.length i used := by
  intro fuel
  induction fuel with
  | zero =>
    intro i hfi used comps warn
    rw [remCount_past _ _ _ (by omega)]
    rfl
  | succ k ih =>
    intro i hfi used comps warn
    unfold outerLoopF
    by_cases h : i < arr.length
    · rw [dif_pos h]
      by_cases hu : i ∈ used
      · rw [if_pos hu]
        rw [remCount_skip arr.length i used hu]
        exact ih (i + 1) (by omega) used comps warn
      · rw [if_neg hu]
        simp only [List.map_cons, List.sum_cons, List.length_cons]
        set r := innerLoop sim cap ftv arr
          (lowerStr (arr.get ⟨i, h⟩).statement) (i + 1) (i :: used)
          comps warn with hr
        have hspec : r.2.1 = r.1.reverse ++ (i :: used) ∧ r.1.Nodup ∧
            ∀ x ∈ r.1, i + 1 ≤ x ∧ x < arr.length ∧ x ∉ (i :: used) :=
          innerLoopF_spec sim cap ftv arr
            (lowerStr (arr.get ⟨i, h⟩).statement) (arr.length - (i + 1))
            (i + 1) (i :: used) comps warn
        rw [filterMapGet_length arr r.1
          (fun j hj => (hspec.2.2 j hj).2.1)]
        rw [ih (i + 1) (by omega) r.2.1 r.2.2.1 r.2.2.2]
        rw [hspec.1]
        have hrg := remCount_removeGroup arr.length i used r.1 hspec.2.1
          (fun x hx => ⟨(hspec.2.2 x hx).1, (hspec.2.2 x hx).2.1,
            fun hm => (hspec.2.2 x hx).2.2 (List.mem_cons_of_mem _ hm)⟩)
        have hstep := remCount_step arr.length i used h hu
        omega
    · rw [dif_neg h]
      rw [remCount_past _ _ _ (by omega)]
      rfl

/-- The greedy fuzzy loop started from scratch covers every fact
exactly once. -/
theorem outerLoop_count (sim : String → String → Bool) (cap : Int)
    (ftv : String) (arr : List ExtractedFact) (warn : List String) :
    ((outerLoop sim cap ftv arr 0 [] 0 warn).1.map List.length).sum =
      arr.length := by
  have := outerLoopF_count sim cap ftv arr (arr.length - 0) 0
    (Nat.le_refl _) [] 0 warn
  rw [remCount_zero] at this
  exact this

end NormalizeMod

namespace NormalizeMod

open SchemasExtraction

/-- Kept facts plus dropped facts account for the stage-1 input. -/
theorem stage1_count (cfg : NormalizeConfig) (l : List ExtractedFact) :
    (stage1 cfg l).1.length + (stage1 cfg l).2 = l.length := by
  induction l with
  | nil => rfl
  | cons f rest ih =>
    unfold stage1
    by_cases hj : looks_like_header_or_junk (normalize_text f.statement) cfg
      = true
    · rw [if_pos hj]
      simp only [List.length_cons]
      omega
    · rw [if_neg hj]
      simp only [List.length_cons]
      omega

/-- The total number of facts stored in a bucket map. -/
def bucketsSize (l : List (κ × ExtractedFact × List ExtractedFact)) : Nat :=
  (l.map (fun e => 1 + e.2.2.length)).sum

/-- Adding one fact grows the bucket map total by one. -/
theorem bucketAdd_size [BEq κ]
    (acc : List (κ × ExtractedFact × List ExtractedFact)) (k : κ)
    (f : ExtractedFact) :
    bucketsSize (bucketAdd acc k f) = bucketsSize acc + 1 := by
  induction acc with
  | nil => rfl
  | cons p rest ih =>
    obtain ⟨k0, g0, gs⟩ := p
    unfold bucketAdd
    by_cases hk : (k0 == k) = true
    · rw [if_pos hk]
      simp only [bucketsSize, List.map_cons, List.sum_cons,
        List.length_append, List.length_cons, List.length_nil]
      omega
    · rw [if_neg hk]
      simp only [bucketsSize, List.map_cons, List.sum_cons]
      have := ih
      simp only [bucketsSize] at this
      omega

/-- Folding a list into a bucket map stores every fact. -/
theorem bucketFold_size [BEq κ] (keyf : ExtractedFact → κ)
    (l : List ExtractedFact) :
    ∀ (acc : List (κ × ExtractedFact × List ExtractedFact)),
    bucketsSize (l.foldl (fun acc f => bucketAdd acc (keyf f) f) acc) =
      bucketsSize acc + l.length := by
  induction l with
  | nil => intro acc; rfl
  | cons f rest ih =>
    intro acc
    simp only [List.foldl_cons, List.length_cons]
    rw [ih (bucketAdd acc (keyf f) f), bucketAdd_size]
    omega

/-- Output facts plus merges account for the exact-dedup buckets. -/
theorem stage2_count
    (buckets : List ((FactType × String) × ExtractedFact ×
      List ExtractedFact)) :
    (stage2 buckets).1.length + (stage2 buckets).2 = bucketsSize buckets := by
  induction buckets with
  | nil => rfl
  | cons e rest ih =>
    obtain ⟨k, f0, fs⟩ := e
    unfold stage2
    cases fs with
    | nil =>
      simp only [bucketsSize, List.map_cons, List.sum_cons, List.length_cons,
        List.length_nil]
      simp only [bucketsSize] at ih
      omega
    | cons y ys =>
      simp only [bucketsSize, List.map_cons, List.sum_cons, List.length_cons]
      simp only [bucketsSize] at ih
      omega

/-- Emitting one group preserves the fact count. -/
theorem groupStep_count (ft : FactType) (acc : List ExtractedFact × Nat)
    (g : List ExtractedFact) :
    (groupStep ft acc g).1.length + (groupStep ft acc g).2 =
      acc.1.length + acc.2 + g.length := by
  match g with
  | [] => rfl
  | [x] =>
    simp only [groupStep, List.length_append, List.length_cons,
      List.length_nil]
    omega
  | x :: y :: rest2 =>
    simp only [groupStep, List.length_append, List.length_cons,
      List.length_nil]
    omega

/-- Emitting all groups preserves the total fact count. -/
theorem groupsFold_count (ft : FactType)
    (groups : List (List ExtractedFact)) :
    ∀ (acc : List ExtractedFact × Nat),
    (groups.foldl (groupStep ft) acc).1.length +
      (groups.foldl (groupStep ft) acc).2 =
      acc.1.length + acc.2 + (groups.map List.length).sum := by
  induction groups with
  | nil => intro acc; rfl
  | cons g rest ih =>
    intro acc
    simp only [List.foldl_cons, List.map_cons, List.sum_cons]
    rw [ih (groupStep ft acc g)]
    have := groupStep_count ft acc g
    omega

/-- One fuzzy bucket's output plus its merges account for its input. -/
theorem fuzzyBucket_count (sim : String → String → Bool) (cap : Int)
    (ft : FactType) (f0 : ExtractedFact) (fs : List ExtractedFact)
    (warn : List String) :
    (fuzzyBucket sim cap ft f0 fs warn).1.length +
      (fuzzyBucket sim cap ft f0 fs warn).2.1 = (f0 :: fs).length := by
  show ((outerLoop sim cap ft.value
      (PyUtil.sortedBy stmtLowerLt (f0 :: fs)) 0 [] 0 warn).1.foldl
      (groupStep ft) ([], 0)).1.length +
    ((outerLoop sim cap ft.value
      (PyUtil.sortedBy stmtLowerLt (f0 :: fs)) 0 [] 0 warn).1.foldl
      (groupStep ft) ([], 0)).2 = (f0 :: fs).length
  have hsum := outerLoop_count sim cap ft.value
    (PyUtil.sortedBy stmtLowerLt (f0 :: fs)) warn
  have hfold := groupsFold_count ft
    (outerLoop sim cap ft.value
      (PyUtil.sortedBy stmtLowerLt (f0 :: fs)) 0 [] 0 warn).1 ([], 0)
  have hlen := PyUtil.length_sortedBy stmtLowerLt (f0 :: fs)
  simp only [List.length_nil] at hfold
  omega

/-- The fuzzy pass accounts for every bucketed fact. -/
theorem stage3_count (sim : String → String → Bool) (cap : Int)
    (buckets : List (FactType × ExtractedFact × List ExtractedFact)) :
    ∀ (warn : List String),
    (stage3 sim cap buckets warn).1.length +
      (stage3 sim cap buckets warn).2.1 = bucketsSize buckets := by
  induction buckets with
  | nil => intro warn; rfl
  | cons e rest ih =>
    obtain ⟨ft, f0, fs⟩ := e
    intro warn
    unfold stage3
    simp only [bucketsSize, List.map_cons, List.sum_cons, List.length_append]
    have hb := fuzzyBucket_count sim cap ft f0 fs warn
    simp only [List.length_cons] at hb
    have hr := ih (fuzzyBucket sim cap ft f0 fs warn).2.2
    simp only [bucketsSize] at hr
    omega

/-- Citation tightening keeps the number of facts. -/
theorem stage35_length (facts : List ExtractedFact)
    (lm : Int → Option String) (mw : Int) :
    (stage35 facts lm mw).1.length = facts.length := by
  induction facts with
  | nil => rfl
  | cons f rest ih =>
    unfold stage35
    simp only [List.length_cons]
    omega

/-- The optional tightening stage keeps the number of facts. -/
theorem tightenStage_length (lm : Option (Int → Option String))
    (cfg : NormalizeConfig) (facts : List ExtractedFact) :
    (tightenStage lm cfg facts).1.length = facts.length := by
  cases lm with
  | none => rfl
  | some m => exact stage35_length facts m cfg.citation_tighten_max_window

/-- Re-identification keeps the number of facts. -/
theorem reId_length (idx : Nat) (l : List ExtractedFact) :
    (reId idx l).length = l.length := by
  induction l generalizing idx with
  | nil => rfl
  | cons f rest ih =>
    unfold reId
    simp only [List.length_cons]
    rw [ih (idx + 1)]

end NormalizeMod

namespace NormalizeMod

open SchemasExtraction

/-- Updating an existing key in place makes it the first hit. -/
theorem find_mapSet (m : List (String × MetaEntry)) (k : String)
    (v : MetaEntry) (h : m.any (fun p => p.1 == k) = true) :
    (m.map (fun p => if p.1 == k then (k, v) else p)).find?
      (fun p => p.1 == k) = some (k, v) := by
  induction m with
  | nil => simp at h
  | cons p rest ih =>
    simp only [List.map_cons]
    by_cases hp : (p.1 == k) = true
    · rw [if_pos hp]
      exact List.find?_cons_of_pos _ (by simp)
    · rw [if_neg hp]
      have hpf : (p.1 == k) = false := Bool.eq_false_iff.mpr hp
      simp only [List.find?_cons, hpf]
      apply ih
      simp only [List.any_cons, hp, Bool.false_or] at h
      exact h

/-- A key none of the map holds is found in the appended tail. -/
theorem find_appendNew (m : List (String × MetaEntry)) (k : String)
    (v : MetaEntry) (h : m.any (fun p => p.1 == k) = false) :
    (m ++ [(k, v)]).find? (fun p => p.1 == k) = some (k, v) := by
  induction m with
  | nil =>
    simp only [List.nil_append]
    exact List.find?_cons_of_pos _ (by simp)
  | cons p rest ih =>
    simp only [List.any_cons, Bool.or_eq_false_iff] at h
    simp only [List.cons_append]
    rw [List.find?_cons_of_neg _ (by simp [h.1])]
    exact ih h.2

/-- `metaSet` stores a value `metaLookup` then retrieves. -/
theorem metaLookup_metaSet (m : List (String × MetaEntry)) (k : String)
    (v : MetaEntry) : metaLookup (metaSet m k v) k = some v := by
  unfold metaSet metaLookup
  by_cases h : m.any (fun p => p.1 == k) = true
  · rw [if_pos h, find_mapSet m k v h]
    rfl
  · rw [if_neg h, find_appendNew m k v (by
      rw [Bool.eq_false_iff]
      exact h)]
    rfl

/-- The output fact count plus the three step-6 counters equals the
input fact count. -/
theorem normalize_and_canonicalize_count (ratioFn : String → String → Rat)
    (extraction : ExtractionOutput) (cfg : NormalizeConfig)
    (lm : Option (Int → Option String)) :
    (normalize_and_canonicalize ratioFn extraction cfg
      lm).1.extracted_facts.length +
      (stage1 cfg extraction.extracted_facts).2 +
      (stage2 (bucketsOf (stage1 cfg extraction.extracted_facts).1)).2 +
      (stage3 (simOf ratioFn cfg) cfg.max_fuzzy_comp_per_type
        (byTypeOf (stage2 (bucketsOf
          (stage1 cfg extraction.extracted_facts).1)).1) []).2.1 =
      extraction.extracted_facts.length := by
  have h1 := stage1_count cfg extraction.extracted_facts
  have hbs1 : bucketsSize (bucketsOf
      (stage1 cfg extraction.extracted_facts).1) =
      bucketsSize ([] : List ((FactType × String) × ExtractedFact ×
        List ExtractedFact)) +
      (stage1 cfg extraction.extracted_facts).1.length :=
    bucketFold_size (fun f => (f.fact_type, fingerprint f.statement))
      (stage1 cfg extraction.extracted_facts).1 []
  have hz1 : bucketsSize ([] : List ((FactType × String) × ExtractedFact ×
      List ExtractedFact)) = 0 := rfl
  have h2 := stage2_count (bucketsOf (stage1 cfg extraction.extracted_facts).1)
  have hbs2 : bucketsSize (byTypeOf
      (stage2 (bucketsOf (stage1 cfg extraction.extracted_facts).1)).1) =
      bucketsSize ([] : List (FactType × ExtractedFact ×
        List ExtractedFact)) +
      (stage2 (bucketsOf (stage1 cfg extraction.extracted_facts).1)).1.length :=
    bucketFold_size (fun f => f.fact_type)
      (stage2 (bucketsOf (stage1 cfg extraction.extracted_facts).1)).1 []
  have hz2 : bucketsSize ([] : List (FactType × ExtractedFact ×
      List ExtractedFact)) = 0 := rfl
  have h3 := stage3_count (simOf ratioFn cfg) cfg.max_fuzzy_comp_per_type
    (byTypeOf (stage2 (bucketsOf
      (stage1 cfg extraction.extracted_facts).1)).1) []
  have ht := tightenStage_length lm cfg
    (stage3 (simOf ratioFn cfg) cfg.max_fuzzy_comp_per_type
      (byTypeOf (stage2 (bucketsOf
        (stage1 cfg extraction.extracted_facts).1)).1) []).1
  have hs := PyUtil.length_sortedBy finalLt
    (tightenStage lm cfg
      (stage3 (simOf ratioFn cfg) cfg.max_fuzzy_comp_per_type
        (byTypeOf (stage2 (bucketsOf
          (stage1 cfg extraction.extracted_facts).1)).1) []).1).1
  have hr := reId_length 1
    (PyUtil.sortedBy finalLt
      (tightenStage lm cfg
        (stage3 (simOf ratioFn cfg) cfg.max_fuzzy_comp_per_type
          (byTypeOf (stage2 (bucketsOf
            (stage1 cfg extraction.extracted_facts).1)).1) []).1).1)
  have hout : (normalize_and_canonicalize ratioFn extraction cfg
      lm).1.extracted_facts.length =
      (reId 1 (PyUtil.sortedBy finalLt
        (tightenStage lm cfg
          (stage3 (simOf ratioFn cfg) cfg.max_fuzzy_comp_per_type
            (byTypeOf (stage2 (bucketsOf
              (stage1 cfg extraction.extracted_facts).1)).1) []).1).1)).length
      := rfl
  omega

/-- The step-6 meta entry of the output holds exactly the three
counters. -/
theorem normalize_and_canonicalize_meta (ratioFn : String → String → Rat)
    (extraction : ExtractionOutput) (cfg : NormalizeConfig)
    (lm : Option (Int → Option String)) :
    metaLookup (normalize_and_canonicalize ratioFn extraction cfg
      lm).1.meta "step6" =
    some (.step6 (stage1 cfg extraction.extracted_facts).2
      (stage2 (bucketsOf (stage1 cfg extraction.extracted_facts).1)).2
      (stage3 (simOf ratioFn cfg) cfg.max_fuzzy_comp_per_type
        (byTypeOf (stage2 (bucketsOf
          (stage1 cfg extraction.extracted_facts).1)).1) []).2.1) :=
  metaLookup_metaSet extraction.meta "step6" _

end NormalizeMod

/-- C10: for every input, the counters recorded in the output's
`step6` meta entry exactly account for the change in fact count: output
facts plus dropped plus exact merges plus fuzzy merges equals the input
facts, for every similarity function and comparison cap (including when
the cap is exceeded). -/
theorem claim_C10_step6_accounting (ratioFn : String → String → Rat)
    (extraction : SchemasExtraction.ExtractionOutput)
    (cfg : NormalizeMod.NormalizeConfig)
    (lm : Option (Int → Option String)) :
    ∃ dropped exact_merges fuzzy_merges : Nat,
      NormalizeMod.metaLookup
        (NormalizeMod.normalize_and_canonicalize ratioFn extraction cfg
          lm).1.meta "step6" =
        some (.step6 dropped exact_merges fuzzy_merges) ∧
      (NormalizeMod.normalize_and_canonicalize ratioFn extraction cfg
        lm).1.extracted_facts.length + dropped + exact_merges +
        fuzzy_merges = extraction.extracted_facts.length :=
  ⟨_, _, _,
   NormalizeMod.normalize_and_canonicalize_meta ratioFn extraction cfg lm,
   NormalizeMod.normalize_and_canonicalize_count ratioFn extraction cfg lm⟩

namespace ExtractMod

open SchemasExtraction

/-- The near-miss `fact_type` mapping of `normalize_fact_types`
(pipeline/extract.py lines 31-41). -/
def factTypeMapping : List (String × String) :=
  [("precaution", "other"), ("precautions", "other"),
   ("warning", "red_flag"), ("warnings", "red_flag"),
   ("contraindications", "contraindication"),
   ("contraindication", "contraindication"),
   ("diagnosis", "diagnostic"), ("followup", "follow_up"),
   ("follow-up", "follow_up")]

/-- `ft.strip().lower()` then mapping lookup for one fact dict whose
`fact_type` key holds a string (ASCII case mapping, as the mapping keys
are ASCII). -/
def normalizeFactType (f : RawFact) : RawFact :=
  match f.fact_type with
  | none => f
  | some s =>
    let key := String.mk ((stripChars s.data).map Char.toLower)
    match factTypeMapping.find? (fun p => p.1 == key) with
    | some p => { f with fact_type := some p.2 }
    | none => f

/-- Non-dict entries of `extracted_facts` are skipped. -/
def normalizeFactTypeItem : RawFactItem → RawFactItem
  | .nonObject => .nonObject
  | .obj f => .obj (normalizeFactType f)

/-- `normalize_fact_types` from pipeline/extract.py (lines 25-56). -/
def normalize_fact_types (obj : RawChunkObj) : RawChunkObj :=
  match obj.extracted_facts with
  | none => obj
  | some facts =>
    { obj with extracted_facts := some (facts.map normalizeFactTypeItem) }

/-- The `^f\d{4}$` pattern of `ExtractedFact.fact_id` (ASCII digits). -/
def factIdOk (s : String) : Bool :=
  match s.data with
  | c :: ds => c = 'f' && ds.length == 4 && ds.all (fun d => d.isDigit)
  | [] => false

/-- Wire-string decoding of the `FactType` enum. -/
def factTypeOfString (s : String) : Option FactType :=
  if s = "population" then some .population
  else if s = "threshold" then some .threshold
  else if s = "exclusion" then some .exclusion
  else if s = "contraindication" then some .contraindication
  else if s = "red_flag" then some .red_flag
  else if s = "action" then some .action
  else if s = "diagnostic" then some .diagnostic
  else if s = "follow_up" then some .follow_up
  else if s = "other" then some .other
  else none

/-- Wire-string decoding of the `Strength` enum. -/
def strengthOfString (s : String) : Option Strength :=
  if s = "must" then some .must
  else if s = "should" then some .should
  else if s = "may" then some .may
  else if s = "consider" then some .consider
  else if s = "unclear" then some .unclear
  else none

/-- The `Citation` schema constraints (`extra="forbid"`, required string
`chunk_id`, required int line fields). -/
def citationOk (c : RawCitation) : Bool :=
  !c.extra && c.chunk_id.isSome &&
  (match c.line_start with | .value _ => true | _ => false) &&
  (match c.line_end with | .value _ => true | _ => false)

/-- A citations-array entry validates only when it is a dict meeting the
`Citation` schema. -/
def citationItemOk : RawCitationItem → Bool
  | .nonObject => false
  | .obj c => citationOk c

/-- The `ExtractedFact` schema constraints (schemas_extraction.py lines
43-67): `extra="forbid"`, `fact_id` matching `^f\d{4}$`, a known
`fact_type`, a non-empty `statement`, an optional known `strength`, and a
`citations` list of valid citations with `min_length=1`. Pydantic
validation succeeds exactly when every constraint holds. -/
def factFieldsOk (f : RawFact) : Bool :=
  !f.extra &&
  (match f.fact_id with | some s => factIdOk s | none => false) &&
  (match f.fact_type with
   | some s => (factTypeOfString s).isSome | none => false) &&
  (match f.statement with
   | some s => decide (1 ≤ s.length) | none => false) &&
  (match f.strength with
   | some s => (strengthOfString s).isSome | none => true) &&
  (match f.citations with
   | some cits => cits.all citationItemOk && decide (1 ≤ cits.length)
   | none => false)

/-- An extracted_facts entry validates only when it is a dict meeting the
fact schema. -/
def factItemOk : RawFactItem → Bool
  | .nonObject => false
  | .obj f => factFieldsOk f

/-- The integer held by a validated line field. -/
def lineValue : RawLineField → Int
  | .value n => n
  | _ => 0

/-- The validated `Citation` built from a citation dict (applied only to
entries that passed `citationItemOk`). -/
def buildCitationItem : RawCitationItem → Option Citation
  | .nonObject => none
  | .obj c => some { chunk_id := c.chunk_id.getD "",
                     line_start := lineValue c.line_start,
                     line_end := lineValue c.line_end,
                     quote := c.quote }

/-- The validated `ExtractedFact` built from a fact dict (applied only to
entries that passed `factItemOk`; defaults mirror the schema's). -/
def buildFactItem : RawFactItem → Option ExtractedFact
  | .nonObject => none
  | .obj f => some
      { fact_id := f.fact_id.getD "",
        fact_type := (f.fact_type.bind factTypeOfString).getD .other,
        statement := f.statement.getD "",
        strength := (f.strength.bind strengthOfString).getD .unclear,
        requires_human_review := f.requires_human_review.getD false,
        citations := (f.citations.getD []).filterMap buildCitationItem,
        raw := none }

/-- `ChunkExtractionOutput.model_validate` (pipeline/extract.py lines
16-18 with schemas_extraction.py): `extra="forbid"` at the root, a
missing `extracted_facts` key defaults to `[]`, and every entry must meet
the strict fact schema; any violation raises a pydantic
`ValidationError` (a non-ExtractionError), modelled as `.error`. -/
def model_validate (obj : RawChunkObj) :
    Except String (List ExtractedFact) :=
  if obj.extra then .error "extra keys forbidden"
  else
    match obj.extracted_facts with
    | none => .ok []
    | some items =>
      if items.all factItemOk then .ok (items.filterMap buildFactItem)
      else .error "invalid extracted_facts"

end ExtractMod

namespace ExtractMod

open SchemasExtraction

/-- The per-citation body of `validate_citations_list`
(pipeline/traceability.py lines 120-154) over already-typed citations
(the dict/key/type `_require`s hold of a `model_dump`): reject exact
duplicate `(chunk_id, line_start, line_end)` triples, then bounds-check
each citation against the trace index; any failure raises
`TraceabilityError` (a non-ExtractionError), modelled as `.error`. -/
def validateCitationsGo (idx : Traceability.TraceIndex)
    (seen : List (String × Int × Int)) :
    List Citation → Except String Unit
  | [] => .ok ()
  | c :: rest =>
    let key := (c.chunk_id, c.line_start, c.line_end)
    if key ∈ seen then .error "Duplicate citation entry"
    else
      match Traceability.validate_citation idx
        ⟨c.chunk_id, c.line_start, c.line_end⟩ with
      | .error e => .error e
      | .ok _ => validateCitationsGo idx (key :: seen) rest

end ExtractMod

namespace ExtractMod

open SchemasExtraction

/-- `validate_citations_list` from pipeline/traceability.py, as called on
`[c.model_dump() for c in fact.citations]` in extract.py. -/
def validate_citations_list (idx : Traceability.TraceIndex)
    (cits : List Citation) : Except String Unit :=
  validateCitationsGo idx [] cits

/-- `parse_json_strict` from pipeline/extract.py (lines 249-281),
parameterized by a `jsonLoads` oracle for the third-party `json.loads`
(`none` models a `JSONDecodeError`; a parsed top-level object is modelled
by a `RawChunkObj`, the only top-level shape the subsequent dict
operations consume; the `_recovered` bookkeeping key is inserted and
immediately popped by the caller, a no-op not modelled). Tries a direct
parse, then the first-`\x7b`-to-last-`\x7d` span, then truncation
recovery; `none` models the final `raise ExtractionError`. -/
def parse_json_strict (jsonLoads : String → Option RawChunkObj)
    (text : String) : Option RawChunkObj :=
  let t := stripChars text.data
  if t.isEmpty then none
  else
    match jsonLoads (String.mk t) with
    | some o => some o
    | none =>
      let attempt2 :=
        match t.findIdx? (fun c => c = lbraceChar),
              (t.reverse.findIdx? (fun c => c = rbraceChar)).map
                (fun k => t.length - 1 - k) with
        | some s, some e =>
          if s < e then
            jsonLoads (String.mk (stripChars ((t.drop s).take (e + 1 - s))))
          else none
        | _, _ => none
      match attempt2 with
      | some o => some o
      | none =>
        match recover_truncated_chunk_json (String.mk t) with
        | some r => jsonLoads r
        | none => none

/-- The outcome of the `try` body of one decode-loop iteration:
return the parsed facts, continue generating (an `ExtractionError` was
raised and caught), or abort the attempt (a non-ExtractionError was
raised, re-raised as `ExtractionError` out of the attempt). -/
inductive StepOutcome where
  | success (facts : List ExtractedFact)
  | continueGen
  | abort (e : String)
deriving DecidableEq

/-- The outcome of the `for fact in parsed.extracted_facts` check loop:
all citations validate, some fact has an empty citation list (the
explicit `raise ExtractionError`), or a citation fails the trace-index
bounds check (a `TraceabilityError`). -/
inductive CheckResult where
  | ok
  | emptyCitations
  | invalid (e : String)
deriving DecidableEq

/-- The per-fact citation checks of extract_chunk (lines 344-347). -/
def checkFacts (idx : Traceability.TraceIndex) :
    List ExtractedFact → CheckResult
  | [] => .ok
  | f :: rest =>
    if f.citations.isEmpty then .emptyCitations
    else
      match validate_citations_list idx f.citations with
      | .error e => .invalid e
      | .ok _ => checkFacts idx rest

/-- The `try` body of one decode-loop iteration of `extract_chunk`
(pipeline/extract.py lines 333-356) on the accumulated text: parse
strictly, normalize citations then fact types, validate against the
strict schema, then run the per-fact citation checks.
`ExtractionError`s (unparseable text, or the explicit empty-citations
raise) are caught by `except ExtractionError` and continue the loop; any
other exception (pydantic `ValidationError`, `TraceabilityError`) is
re-raised as an `ExtractionError` that aborts the whole attempt. -/
def attemptStep (jsonLoads : String → Option RawChunkObj)
    (chunk : ChunkRec) (idx : Traceability.TraceIndex)
    (accumulated : String) : StepOutcome :=
  match parse_json_strict jsonLoads accumulated with
  | none => .continueGen
  | some obj =>
    match model_validate
      (normalize_fact_types (normalize_citations_to_chunk obj chunk)) with
    | .error e => .abort ("Schema validation failed: " ++ e)
    | .ok parsed =>
      match checkFacts idx parsed with
      | .ok => .success parsed
      | .emptyCitations => .continueGen
      | .invalid e => .abort ("Schema validation failed: " ++ e)

/-- `hard_cap_tokens` (extract.py line 322). -/
def hard_cap_tokens : Nat := 1800

/-- `step_tokens` (extract.py line 323). -/
def step_tokens : Nat := 256

/-- The post-loop last attempt (extract.py lines 358-373): the same body,
but every exception is swallowed and the token-cap `ExtractionError` is
raised instead. -/
def finalAttempt (jsonLoads : String → Option RawChunkObj)
    (chunk : ChunkRec) (idx : Traceability.TraceIndex)
    (accumulated : String) : Except String (List ExtractedFact) :=
  match attemptStep jsonLoads chunk idx accumulated with
  | .success p => .ok p
  | _ => .error "Model did not produce valid JSON within token cap."

/-- The `while generated < hard_cap_tokens` decode loop of
`extract_chunk` (extract.py lines 325-356): request `step_tokens` more
tokens (`gen` abstracts `llm.generate_text` as a function of the
accumulated continuation), append, count, and run the try body. The
structural fuel only bounds the iteration count: each iteration adds 256
to `generated`, so from the entry point (fuel `hard_cap_tokens`,
`generated = 0`) the loop always exits through the `generated ≥
hard_cap_tokens` branch, which runs the post-loop last attempt; the
fuel-0 clause mirrors that exit and is unreachable from the entry
point. -/
def extract_chunk_loop (gen : String → String)
    (jsonLoads : String → Option RawChunkObj) (chunk : ChunkRec)
    (idx : Traceability.TraceIndex) :
    Nat → String → Nat → Except String (List ExtractedFact) × Nat
  | 0, accumulated, generated =>
    (finalAttempt jsonLoads chunk idx accumulated, generated)
  | fuel + 1, accumulated, generated =>
    if generated < hard_cap_tokens then
      match attemptStep jsonLoads chunk idx (accumulated ++ gen accumulated)
        with
      | .success p => (.ok p, generated + step_tokens)
      | .abort e => (.error e, generated + step_tokens)
      | .continueGen =>
        extract_chunk_loop gen jsonLoads chunk idx fuel
          (accumulated ++ gen accumulated) (generated + step_tokens)
    else (finalAttempt jsonLoads chunk idx accumulated, generated)

/-- One attempt of `extract_chunk` (extract.py lines 297-373), starting
from the forced `\x7b` and zero generated tokens, also returning the
final value of the `generated` token counter. -/
def extract_chunk (gen : String → String)
    (jsonLoads : String → Option RawChunkObj) (chunk : ChunkRec)
    (idx : Traceability.TraceIndex) :
    Except String (List ExtractedFact) × Nat :=
  extract_chunk_loop gen jsonLoads chunk idx hard_cap_tokens "\x7b" 0

end ExtractMod

namespace ExtractMod

/-- Once the generated-token total has reached the hard cap, the loop
issues no further requests: the counter is returned unchanged. -/
theorem extract_chunk_loop_stops (gen : String → String)
    (jsonLoads : String → Option RawChunkObj) (chunk : ChunkRec)
    (idx : Traceability.TraceIndex) (fuel : Nat) (acc : String) (g : Nat)
    (hg : hard_cap_tokens ≤ g) :
    (extract_chunk_loop gen jsonLoads chunk idx fuel acc g).2 = g := by
  cases fuel with
  | zero => rfl
  | succ k =>
    unfold extract_chunk_loop
    rw [if_neg (by omega)]

/-- The generated-token counter stays a multiple of 256 bounded by 2048:
each iteration adds 256 and only runs while the total is below 1800. -/
theorem extract_chunk_loop_bound (gen : String → String)
    (jsonLoads : String → Option RawChunkObj) (chunk : ChunkRec)
    (idx : Traceability.TraceIndex) :
    ∀ (fuel : Nat) (acc : String) (g : Nat), g % 256 = 0 → g ≤ 2048 →
    (extract_chunk_loop gen jsonLoads chunk idx fuel acc g).2 ≤ 2048 ∧
    (extract_chunk_loop gen jsonLoads chunk idx fuel acc g).2 % 256 = 0 := by
  intro fuel
  induction fuel with
  | zero => intro acc g h1 h2; exact ⟨h2, h1⟩
  | succ k ih =>
    intro acc g h1 h2
    unfold extract_chunk_loop
    by_cases hg : g < hard_cap_tokens
    · rw [if_pos hg]
      have hcap : g < 1800 := by
        simpa [hard_cap_tokens] using hg
      cases attemptStep jsonLoads chunk idx (acc ++ gen acc) with
      | success p =>
        constructor
        · show g + 256 ≤ 2048
          omega
        · show (g + 256) % 256 = 0
          omega
      | abort e =>
        constructor
        · show g + 256 ≤ 2048
          omega
        · show (g + 256) % 256 = 0
          omega
      | continueGen =>
        exact ih (acc ++ gen acc) (g + 256) (by omega) (by omega)
    · rw [if_neg hg]
      exact ⟨h2, h1⟩

end ExtractMod

/-- C7 (amended): across one attempt of the bounded decoding loop the
cumulative number of tokens requested is a multiple of 256 and at most
2048 = 8 × 256 (not 1800: the loop tests `generated < 1800` before each
256-token request, so the total can reach 1792 + 256 = 2048); and once
the 1800-token cap has been reached, no further request is issued. -/
theorem claim_C7_token_cap (gen : String → String)
    (jsonLoads : String → Option ExtractMod.RawChunkObj)
    (chunk : ExtractMod.ChunkRec) (idx : Traceability.TraceIndex) :
    ((ExtractMod.extract_chunk gen jsonLoads chunk idx).2 ≤ 2048 ∧
     (ExtractMod.extract_chunk gen jsonLoads chunk idx).2 % 256 = 0) ∧
    (∀ (fuel : Nat) (acc : String) (g : Nat),
      ExtractMod.hard_cap_tokens ≤ g →
      (ExtractMod.extract_chunk_loop gen jsonLoads chunk idx fuel acc
        g).2 = g) :=
  ⟨ExtractMod.extract_chunk_loop_bound gen jsonLoads chunk idx
    ExtractMod.hard_cap_tokens "\x7b" 0 (by decide) (by decide),
   fun fuel acc g hg =>
     ExtractMod.extract_chunk_loop_stops gen jsonLoads chunk idx fuel
       acc g hg⟩

/-- C7 counterexample to the 1800-token bound: with a model that returns
no further text and output that never parses, the attempt requests
8 × 256 = 2048 tokens in total, which exceeds 1800. -/
theorem claim_C7_token_cap_counterexample :
    (ExtractMod.extract_chunk (fun _ => "") (fun _ => none)
      ExtractMod.demoChunk ⟨[]⟩).2 = 2048 ∧
    ¬ ((ExtractMod.extract_chunk (fun _ => "") (fun _ => none)
      ExtractMod.demoChunk ⟨[]⟩).2 ≤ 1800) := by
  constructor
  · rfl
  · intro h
    have he : (ExtractMod.extract_chunk (fun _ => "") (fun _ => none)
        ExtractMod.demoChunk ⟨[]⟩).2 = 2048 := rfl
    omega

/-- C7 witness: the amended theorem applied at a concrete loop state that
has reached the cap: the counter 1800 is returned unchanged. -/
theorem claim_C7_token_cap_witness :
    (ExtractMod.extract_chunk_loop (fun _ => "") (fun _ => none)
      ExtractMod.demoChunk ⟨[]⟩ 3 "\x7b" 1800).2 = 1800 :=
  (claim_C7_token_cap (fun _ => "") (fun _ => none)
    ExtractMod.demoChunk ⟨[]⟩).2 3 "\x7b" 1800 (by decide)

namespace ExtractMod

open SchemasExtraction

/-- A fact whose citation list is empty fails the strict schema. -/
theorem factItemOk_empty_citations (f : RawFact)
    (hc : f.citations = some []) : factItemOk (.obj f) = false := by
  simp [factItemOk, factFieldsOk, hc]

/-- An object holding a fact with an empty citation list fails
`model_validate`. -/
theorem model_validate_error_of_empty (obj2 : RawChunkObj)
    (fl : List RawFactItem) (f : RawFact)
    (hn : obj2.extracted_facts = some fl) (hm : RawFactItem.obj f ∈ fl)
    (hc : f.citations = some []) :
    ∃ e, model_validate obj2 = .error e := by
  unfold model_validate
  by_cases hex : obj2.extra
  · rw [if_pos hex]
    exact ⟨_, rfl⟩
  · rw [if_neg hex, hn]
    have hall : fl.all factItemOk = false :=
      List.all_eq_false.mpr ⟨_, hm, by
        rw [factItemOk_empty_citations f hc]
        simp⟩
    refine ⟨"invalid extracted_facts", ?_⟩
    simp [hall]

/-- A fact that passes the strict schema has a non-empty citations list
whose entries all validate. -/
theorem factItemOk_citations (f : RawFact) (h : factFieldsOk f = true) :
    ∃ c cs, f.citations = some (c :: cs) ∧ citationItemOk c = true := by
  simp only [factFieldsOk, Bool.and_eq_true] at h
  have h6 := h.2
  cases hm : f.citations with
  | none => rw [hm] at h6; simp at h6
  | some cits =>
    rw [hm] at h6
    simp only [Bool.and_eq_true, decide_eq_true_eq] at h6
    obtain ⟨hall, hlen⟩ := h6
    cases cits with
    | nil => simp at hlen
    | cons c cs =>
      exact ⟨c, cs, rfl, List.all_eq_true.mp hall c (List.mem_cons_self _ _)⟩

/-- Facts accepted by `model_validate` never carry an empty citation
list (the schema's `min_length=1` on `citations`). -/
theorem model_validate_nonempty_citations (obj : RawChunkObj)
    (parsed : List ExtractedFact) (h : model_validate obj = .ok parsed) :
    ∀ fc ∈ parsed, fc.citations ≠ [] := by
  intro fc hfc
  unfold model_validate at h
  by_cases hex : obj.extra
  · rw [if_pos hex] at h
    exact absurd h (by simp)
  · rw [if_neg hex] at h
    cases hm : obj.extracted_facts with
    | none =>
      simp only [hm] at h
      injection h with h
      subst h
      simp at hfc
    | some items =>
      simp only [hm] at h
      by_cases hall : items.all factItemOk = true
      · rw [if_pos hall] at h
        injection h with h
        subst h
        obtain ⟨a, ha, hb⟩ := List.mem_filterMap.mp hfc
        cases a with
        | nonObject => exact absurd hb (by simp [buildFactItem])
        | obj f =>
          have hfok : factFieldsOk f = true := by
            have := List.all_eq_true.mp hall _ ha
            simpa [factItemOk] using this
          obtain ⟨c, cs, hcits, hcok⟩ := factItemOk_citations f hfok
          injection hb with hb
          subst hb
          show ((f.citations.getD []).filterMap buildCitationItem) ≠ []
          rw [hcits]
          cases c with
          | nonObject => simp [citationItemOk] at hcok
          | obj cc =>
            simp [buildCitationItem]
      · rw [if_neg hall] at h
        exact absurd h (by simp)

end ExtractMod

namespace ExtractMod

open SchemasExtraction

/-- A raw citation entirely outside demoChunk's [5, 9] bounds, dropped
by normalization. -/
def demoC6Cit : RawCitation :=
  { chunk_id := none, line_start := .value 20, line_end := .value 25,
    quote := none, extra := false }

/-- A raw fact whose only citation is out of range. -/
def demoC6Fact : RawFact :=
  { fact_id := some "f0001", fact_type := some "other",
    statement := some "x", strength := none,
    requires_human_review := none,
    citations := some [.obj demoC6Cit], extra := false }

/-- The same fact after normalization dropped its only citation. -/
def demoC6FactNorm : RawFact := { demoC6Fact with citations := some [] }

/-- The parsed chunk object holding `demoC6Fact`. -/
def demoC6Obj : RawChunkObj := ⟨some [.obj demoC6Fact], false⟩

end ExtractMod

/-- C6: within one decode-loop iteration of `extract_chunk`, whenever the
successfully parsed and normalized object holds a fact dict whose
citation list is empty, the strict schema validation rejects it
(`citations` has `min_length=1`), so the iteration aborts the whole
attempt with an `ExtractionError` (triggering the outer retry); an
aborting iteration ends the loop immediately with an error after exactly
its own 256-token request; and validated facts never carry an empty
citation list, so the caught-and-continue path never fires for one. -/
theorem claim_C6_empty_citations_abort :
    (∀ (jsonLoads : String → Option ExtractMod.RawChunkObj)
       (chunk : ExtractMod.ChunkRec) (idx : Traceability.TraceIndex)
       (acc : String) (obj : ExtractMod.RawChunkObj)
       (fl : List ExtractMod.RawFactItem) (f : ExtractMod.RawFact),
       ExtractMod.parse_json_strict jsonLoads acc = some obj →
       (ExtractMod.normalize_fact_types
         (ExtractMod.normalize_citations_to_chunk obj
           chunk)).extracted_facts = some fl →
       ExtractMod.RawFactItem.obj f ∈ fl →
       f.citations = some [] →
       ∃ e, ExtractMod.attemptStep jsonLoads chunk idx acc =
         .abort e) ∧
    (∀ (gen : String → String)
       (jsonLoads : String → Option ExtractMod.RawChunkObj)
       (chunk : ExtractMod.ChunkRec) (idx : Traceability.TraceIndex)
       (fuel : Nat) (acc : String) (g : Nat) (e : String),
       g < ExtractMod.hard_cap_tokens →
       ExtractMod.attemptStep jsonLoads chunk idx (acc ++ gen acc) =
         .abort e →
       ExtractMod.extract_chunk_loop gen jsonLoads chunk idx (fuel + 1)
         acc g = (.error e, g + ExtractMod.step_tokens)) ∧
    (∀ (obj : ExtractMod.RawChunkObj)
       (parsed : List SchemasExtraction.ExtractedFact),
       ExtractMod.model_validate obj = .ok parsed →
       ∀ fc ∈ parsed, fc.citations ≠ []) := by
  refine ⟨?_, ?_, ?_⟩
  · intro jsonLoads chunk idx acc obj fl f hp hn hm hc
    obtain ⟨e0, he0⟩ := ExtractMod.model_validate_error_of_empty _ fl f hn
      hm hc
    refine ⟨"Schema validation failed: " ++ e0, ?_⟩
    unfold ExtractMod.attemptStep
    simp only [hp, he0]
  · intro gen jsonLoads chunk idx fuel acc g e hg hstep
    unfold ExtractMod.extract_chunk_loop
    rw [if_pos hg]
    simp only [hstep]
  · exact fun obj parsed h =>
      ExtractMod.model_validate_nonempty_citations obj parsed h

set_option maxRecDepth 20000 in
/-- C6 witness: on the concrete parse `demoC6Obj` (one fact whose only
citation lies outside demoChunk's bounds, so normalization empties the
list), the claim theorem yields an aborting step. -/
theorem claim_C6_empty_citations_abort_witness :
    ∃ e, ExtractMod.attemptStep (fun _ => some ExtractMod.demoC6Obj)
      ExtractMod.demoChunk Traceability.demoIndex "\x7b" = .abort e :=
  claim_C6_empty_citations_abort.1 (fun _ => some ExtractMod.demoC6Obj)
    ExtractMod.demoChunk Traceability.demoIndex "\x7b" ExtractMod.demoC6Obj
    [ExtractMod.RawFactItem.obj ExtractMod.demoC6FactNorm]
    ExtractMod.demoC6FactNorm (by decide) (by decide) (by decide) (by decide)
